import Mathlib

/-!
Shallow embedding of the alpha_project matching engine core, checked against
the repository's natural-language specification.

Conventions of the embedding:
* `rust_decimal::Decimal` is modeled as `ℚ` (`Rat`): exact for the addition,
  subtraction, multiplication and comparison the book math uses.
* `u64` / `u32` counters and identifiers are modeled as `Nat` (the claims
  checked here do not depend on wrap-around behaviour).
* `BTreeMap<Decimal, VecDeque<Order>>` is modeled as an association list of
  `(price, queue)` pairs kept in iteration order: ascending for asks and
  descending for bids (the source iterates bids with `.rev()`).
* `HashMap` is modeled as an association list with unique keys; `insert`
  replaces, `remove` deletes the key.
* Wall-clock reads (`chrono::Utc::now()`) are modeled by an explicit `now`
  parameter threaded to the point of use.
* Fallible Rust functions returning `AlphaResult<T>` become `Except AlphaError T`.
-/

namespace Alpha

/-- Decimal values (`rust_decimal::Decimal`) are modeled as exact rationals. -/
abbrev Decimal := Rat

/-- Variants of `error::AlphaError` that the embedded code paths construct
(`RiskViolation { rule, actual, limit }`, `UnknownAsset`, `Fatal`).
`RiskViolation`'s arguments are, in order: rule, limit, actual. -/
inductive AlphaError where
  | RiskViolation (rule limit actual : String)
  | UnknownAsset (asset : String)
  | Fatal (msg : String)
deriving DecidableEq

namespace Matching

/-- `matching::Side` from `engine/src/matching/mod.rs`. -/
inductive Side where
  | Bid
  | Ask
deriving DecidableEq

/-- `Side::opposite`. -/
def Side.opposite : Side → Side
  | Side.Bid => Side.Ask
  | Side.Ask => Side.Bid

/-- `matching::OrderType` from `engine/src/matching/mod.rs`. -/
inductive OrderType where
  | Limit
  | Market
  | ImmediateOrCancel
  | FillOrKill
  | PostOnly
deriving DecidableEq

/-- `matching::Order` from `engine/src/matching/mod.rs`. -/
structure Order where
  id : Nat
  symbol_id : Nat
  side : Side
  order_type : OrderType
  price : Decimal
  quantity : Decimal
  timestamp : Nat
  owner_id : String
deriving DecidableEq

/-- `Order::validate`. -/
def Order.validate (o : Order) : Bool :=
  decide (0 < o.quantity) && decide (0 ≤ o.price)

/-- `matching::Trade` from `engine/src/matching/mod.rs`. -/
structure Trade where
  taker_order_id : Nat
  maker_order_id : Nat
  price : Decimal
  quantity : Decimal
  taker_side : Side
  executed_at : Nat
deriving DecidableEq

/-- `matching::OrderStatus` from `engine/src/matching/mod.rs`. -/
inductive OrderStatus where
  | Filled
  | PartiallyFilled
  | Queued
  | Cancelled
  | Rejected
deriving DecidableEq

/-- `matching::MatchingResult` from `engine/src/matching/mod.rs`. -/
structure MatchingResult where
  trades : List Trade
  remaining_qty : Decimal
  status : OrderStatus
deriving DecidableEq

/-- `OrderLocation` from `engine/src/matching/order_book.rs`: the cancel
index entry. -/
structure OrderLocation where
  price : Decimal
  side : Side
deriving DecidableEq

/-- `OrderBook` from `engine/src/matching/order_book.rs`.
`bids` is kept in the iteration order the source uses (highest price first),
`asks` lowest price first. -/
structure OrderBook where
  symbol_id : Nat
  bids : List (Decimal × List Order)
  asks : List (Decimal × List Order)
  order_index : List (Nat × OrderLocation)
deriving DecidableEq

/-- `OrderBook::new`. -/
def OrderBook.new (symbol_id : Nat) : OrderBook :=
  ⟨symbol_id, [], [], []⟩

/-- `HashMap::remove` on the id index (the key is gone afterwards). -/
def indexRemove (idx : List (Nat × OrderLocation)) (id : Nat) :
    List (Nat × OrderLocation) :=
  idx.filter (fun p => p.1 != id)

/-- `HashMap::get` on the id index. -/
def indexLookup (idx : List (Nat × OrderLocation)) (id : Nat) :
    Option OrderLocation :=
  List.lookup id idx

/-- `HashMap::insert` on the id index. -/
def indexInsert (idx : List (Nat × OrderLocation)) (id : Nat)
    (loc : OrderLocation) : List (Nat × OrderLocation) :=
  (id, loc) :: indexRemove idx id

/-- Result of the inner FIFO loop of `OrderBook::match_bid` / `match_ask`:
remaining aggressor quantity, remaining queue, trades pushed, and the ids of
fully-filled makers that were popped (the source erases them from
`order_index` as it goes). -/
structure QueueMatch where
  remaining : Decimal
  queue : List Order
  trades : List Trade
  removed : List Nat
deriving DecidableEq

/-- Inner FIFO loop of `OrderBook::match_bid` (order_book.rs lines 131-156)
and its `match_ask` mirror: while the aggressor has quantity and the queue is
non-empty, match against the front maker at the level price `price`. -/
def matchQueue (takerId : Nat) (tside : Side) (now : Nat) (price : Decimal) :
    Decimal → List Order → QueueMatch
  | qty, [] => ⟨qty, [], [], []⟩
  | qty, m :: rest =>
    if 0 < qty then
      let x := min qty m.quantity
      let t : Trade := ⟨takerId, m.id, price, x, tside, now⟩
      if m.quantity - x = 0 then
        let r := matchQueue takerId tside now price (qty - x) rest
        ⟨r.remaining, r.queue, t :: r.trades, m.id :: r.removed⟩
      else
        ⟨qty - x, { m with quantity := m.quantity - x } :: rest, [t], []⟩
    else ⟨qty, m :: rest, [], []⟩

/-- Result of the outer level loop of `match_bid` / `match_ask`. -/
structure LevelsMatch where
  remaining : Decimal
  levels : List (Decimal × List Order)
  trades : List Trade
  removed : List Nat
deriving DecidableEq

/-- Outer loop of `OrderBook::match_bid` / `match_ask` (order_book.rs lines
112-163 / 165-207): walk the opposite side in iteration order; stop when the
best level no longer crosses (`cross` is the source's negated break
condition); drop a level whose queue empties. -/
def matchLevels (takerId : Nat) (tside : Side) (now : Nat)
    (cross : Decimal → Bool) :
    Decimal → List (Decimal × List Order) → LevelsMatch
  | qty, [] => ⟨qty, [], [], []⟩
  | qty, (p, q) :: rest =>
    if 0 < qty then
      if cross p then
        let r1 := matchQueue takerId tside now p qty q
        if r1.queue.isEmpty then
          let r2 := matchLevels takerId tside now cross r1.remaining rest
          ⟨r2.remaining, r2.levels, r1.trades ++ r2.trades,
            r1.removed ++ r2.removed⟩
        else
          ⟨r1.remaining, (p, r1.queue) :: rest, r1.trades, r1.removed⟩
      else ⟨qty, (p, q) :: rest, [], []⟩
    else ⟨qty, (p, q) :: rest, [], []⟩

/-- Erase the ids of popped makers from the id index (`order_index.remove`). -/
def indexRemoveMany (idx : List (Nat × OrderLocation)) (ids : List Nat) :
    List (Nat × OrderLocation) :=
  ids.foldl indexRemove idx

/-- `OrderBook::match_bid`: a Bid aggressor crosses the asks; the break
condition is `ask_price > order.price`. Returns the updated book, the updated
aggressor and the trades. -/
def OrderBook.match_bid (b : OrderBook) (order : Order) (now : Nat) :
    OrderBook × Order × List Trade :=
  let r := matchLevels order.id Side.Bid now
    (fun p => decide (p ≤ order.price)) order.quantity b.asks
  (⟨b.symbol_id, b.bids, r.levels, indexRemoveMany b.order_index r.removed⟩,
    { order with quantity := r.remaining }, r.trades)

/-- `OrderBook::match_ask`: an Ask aggressor crosses the bids (iterated
highest price first); the break condition is `bid_price < order.price`. -/
def OrderBook.match_ask (b : OrderBook) (order : Order) (now : Nat) :
    OrderBook × Order × List Trade :=
  let r := matchLevels order.id Side.Ask now
    (fun p => decide (order.price ≤ p)) order.quantity b.bids
  (⟨b.symbol_id, r.levels, b.asks, indexRemoveMany b.order_index r.removed⟩,
    { order with quantity := r.remaining }, r.trades)

/-- Insertion into the ask side: ascending price order, FIFO within a level
(`book_side.entry(price).or_insert_with(VecDeque::new).push_back(order)`).
Polymorphic in the order record so both book implementations share it. -/
def insertLevelAsc {α : Type} (levels : List (Decimal × List α))
    (price : Decimal) (o : α) : List (Decimal × List α) :=
  match levels with
  | [] => [(price, [o])]
  | (p, q) :: rest =>
    if price < p then (price, [o]) :: (p, q) :: rest
    else if price = p then (p, q ++ [o]) :: rest
    else (p, q) :: insertLevelAsc rest price o

/-- Insertion into the bid side: descending price order (iteration order of
the source), FIFO within a level. -/
def insertLevelDesc {α : Type} (levels : List (Decimal × List α))
    (price : Decimal) (o : α) : List (Decimal × List α) :=
  match levels with
  | [] => [(price, [o])]
  | (p, q) :: rest =>
    if p < price then (price, [o]) :: (p, q) :: rest
    else if price = p then (p, q ++ [o]) :: rest
    else (p, q) :: insertLevelDesc rest price o

/-- `OrderBook::add_limit_order` (order_book.rs lines 209-229). -/
def OrderBook.add_limit_order (b : OrderBook) (o : Order) : OrderBook :=
  let idx := indexInsert b.order_index o.id ⟨o.price, o.side⟩
  match o.side with
  | Side.Bid => { b with bids := insertLevelDesc b.bids o.price o, order_index := idx }
  | Side.Ask => { b with asks := insertLevelAsc b.asks o.price o, order_index := idx }

/-- `OrderBook::process_order` (order_book.rs lines 54-79): match, then rest
any remainder as a limit order (the source rests the remainder regardless of
`order_type`; its comment says it assumes a plain Limit). -/
def OrderBook.process_order (b : OrderBook) (order : Order) (now : Nat) :
    MatchingResult × OrderBook :=
  let step :=
    match order.side with
    | Side.Bid => b.match_bid order now
    | Side.Ask => b.match_ask order now
  let b1 := step.1
  let order1 := step.2.1
  let trades := step.2.2
  if 0 < order1.quantity then
    let status := if trades.isEmpty then OrderStatus.Queued
                  else OrderStatus.PartiallyFilled
    (⟨trades, order1.quantity, status⟩, b1.add_limit_order order1)
  else
    (⟨trades, order1.quantity, OrderStatus.Filled⟩, b1)

/-- Remove the order with the given id from a level queue
(`queue.iter().position(...)` then `queue.remove(idx)`); `none` when the id
is not in the queue. -/
def removeFromQueue (q : List Order) (id : Nat) : Option (List Order) :=
  match q with
  | [] => none
  | o :: rest =>
    if o.id = id then some rest
    else (removeFromQueue rest id).map (o :: ·)

/-- Find the level at `price`, remove the order with the given id from its
queue, and drop the level if the queue becomes empty; `none` when the level
or the order is missing. -/
def levelRemove (levels : List (Decimal × List Order)) (price : Decimal)
    (id : Nat) : Option (List (Decimal × List Order)) :=
  match levels with
  | [] => none
  | (p, q) :: rest =>
    if p = price then
      match removeFromQueue q id with
      | some q' => some (if q'.isEmpty then rest else (p, q') :: rest)
      | none => none
    else (levelRemove rest price id).map ((p, q) :: ·)

/-- `OrderBook::cancel_order` (order_book.rs lines 82-106). The index entry is
removed up front (`order_index.remove`); `true` is returned only when the
order was also found and removed from its level queue. -/
def OrderBook.cancel_order (b : OrderBook) (order_id : Nat) :
    Bool × OrderBook :=
  match indexLookup b.order_index order_id with
  | none => (false, b)
  | some loc =>
    let b1 := { b with order_index := indexRemove b.order_index order_id }
    match loc.side with
    | Side.Bid =>
      match levelRemove b1.bids loc.price order_id with
      | some bids' => (true, { b1 with bids := bids' })
      | none => (false, b1)
    | Side.Ask =>
      match levelRemove b1.asks loc.price order_id with
      | some asks' => (true, { b1 with asks := asks' })
      | none => (false, b1)

/-- Overwrite a trade's `executed_at` (used to state which fields depend on
the wall clock). -/
def Trade.withTime (t : Trade) (n : Nat) : Trade :=
  { t with executed_at := n }

/-- A trade with its `executed_at` field erased (set to 0): the part of a
trade that does not come from the wall clock. -/
def Trade.eraseTime (t : Trade) : Trade :=
  t.withTime 0

/-- The two write-ahead-log record kinds replayed by
`engine/tests/recovery_test.rs` (`LogEvent`). -/
inductive Command where
  | placeOrder (o : Order)
  | cancelOrder (id : Nat)
deriving DecidableEq

/-- Apply one log record to a `(book, emitted trades)` state, the way the
recovery test replays its log: `PlaceOrder` goes through the full matching
path, `CancelOrder` through `cancel_order`. `now` is the wall-clock value the
run reads when it stamps trades. -/
def applyCommand (now : Nat) (s : OrderBook × List Trade) (c : Command) :
    OrderBook × List Trade :=
  match c with
  | Command.placeOrder o =>
    let r := s.1.process_order o now
    (r.2, s.2 ++ r.1.trades)
  | Command.cancelOrder id => ((s.1.cancel_order id).2, s.2)

/-- Replay a command log from an empty book, reading the wall clock `now`. -/
def replay (now : Nat) (sym : Nat) (log : List Command) :
    OrderBook × List Trade :=
  log.foldl (applyCommand now) (OrderBook.new sym, [])

/-- The log used to exhibit the wall-clock dependence of `executed_at`: one
resting ask, then a crossing bid that fully matches it. -/
def demoLog : List Command :=
  [Command.placeOrder ⟨1, 1, Side.Ask, OrderType.Limit, 100, 1, 0, "a"⟩,
   Command.placeOrder ⟨2, 1, Side.Bid, OrderType.Limit, 100, 1, 0, "b"⟩]

end Matching

namespace Models

/-- `models::OrderType` from `engine/src/models/order.rs`. -/
inductive OrderType where
  | Market
  | Limit
  | StopLoss
  | StopLimit
  | TakeProfit
  | TakeProfitLimit
  | TrailingStop
deriving DecidableEq

/-- `models::TimeInForce` from `engine/src/models/order.rs`. -/
inductive TimeInForce where
  | GTC
  | IOC
  | FOK
  | GTD
deriving DecidableEq

/-- `models::OrderStatus` from `engine/src/models/order.rs`. -/
inductive OrderStatus where
  | Created
  | PendingNew
  | New
  | PartiallyFilled
  | Filled
  | Canceled
  | Rejected
  | Expired
deriving DecidableEq

/-- `models::OrderSide` from `engine/src/models/order.rs`. -/
inductive OrderSide where
  | Buy
  | Sell
deriving DecidableEq

/-- `models::Order` from `engine/src/models/order.rs`. -/
structure Order where
  id : Nat
  client_order_id : String
  exchange_order_id : Option String
  strategy_id : String
  symbol : String
  exchange : String
  side : OrderSide
  order_type : OrderType
  time_in_force : TimeInForce
  original_qty : Decimal
  executed_qty : Decimal
  price : Option Decimal
  stop_price : Option Decimal
  avg_fill_price : Option Decimal
  status : OrderStatus
  created_at : Nat
  updated_at : Nat
deriving DecidableEq

/-- `Order::is_active`: status ∈ {New, PartiallyFilled, PendingNew}. -/
def Order.is_active (o : Order) : Bool :=
  match o.status with
  | OrderStatus.New => true
  | OrderStatus.PartiallyFilled => true
  | OrderStatus.PendingNew => true
  | _ => false

/-- `Order::is_closed`: `!is_active() && status != Created`. -/
def Order.is_closed (o : Order) : Bool :=
  !o.is_active && !(o.status == OrderStatus.Created)

end Models

namespace Engine

/-- `TradeExecution` from `engine/src/matching/engine.rs`. The `trade_id`
field is a fresh UUID in the source; it is modeled as `""` (no claim checked
here depends on it). -/
structure TradeExecution where
  trade_id : String
  symbol : String
  price : Decimal
  quantity : Decimal
  side : Models.OrderSide
  timestamp : Nat
  maker_order_id : String
  taker_order_id : String
deriving DecidableEq

/-- The private `OrderBook` of `engine/src/matching/engine.rs`: two price maps
of FIFO queues of `models::Order`, without a cancel index. `bids` is kept in
the source's iteration order (highest price first via `.rev()`), `asks`
lowest price first. -/
structure OrderBook where
  symbol : String
  bids : List (Decimal × List Models.Order)
  asks : List (Decimal × List Models.Order)
deriving DecidableEq

/-- `MatchingResult` from `engine/src/matching/engine.rs`. -/
structure MatchingResult where
  order : Models.Order
  trades : List TradeExecution
deriving DecidableEq

/-- The status written after a fill: `Filled` when `executed_qty >=
original_qty`, else `PartiallyFilled` (engine.rs lines 86-98). -/
def fillStatus (original executed : Decimal) : Models.OrderStatus :=
  if original ≤ executed then Models.OrderStatus.Filled
  else Models.OrderStatus.PartiallyFilled

/-- One-maker-at-a-time matching against the FIFO queue of the best level
(the body of the `while` in `OrderBook::match_bid` / `match_ask`, engine.rs
lines 62-131 / 133-188): match the front maker, update both orders' executed
quantity and status, record the trade, pop the maker if it closed. The
source's loop re-reads the front of the same queue each iteration; that is
this recursion over the queue. -/
def matchQueueE (now : Nat) (p : Decimal) :
    Models.Order → List Models.Order →
      Models.Order × List Models.Order × List TradeExecution
  | ord, [] => (ord, [], [])
  | ord, m :: ms =>
    if ord.is_active then
      let x := min (ord.original_qty - ord.executed_qty)
        (m.original_qty - m.executed_qty)
      let m1 := { m with executed_qty := m.executed_qty + x,
                         status := fillStatus m.original_qty (m.executed_qty + x) }
      let ord1 := { ord with executed_qty := ord.executed_qty + x,
                             status := fillStatus ord.original_qty (ord.executed_qty + x) }
      let t : TradeExecution :=
        ⟨"", ord.symbol, p, x, ord.side, now, m.client_order_id, ord.client_order_id⟩
      if m1.is_closed then
        let r := matchQueueE now p ord1 ms
        (r.1, r.2.1, t :: r.2.2)
      else (ord1, m1 :: ms, [t])
    else (ord, m :: ms, [])

/-- The price break condition of the match loop: for a Buy, stop when the
level price exceeds the limit; for a Sell, when it is below the limit; a
`Market` order (`price == None`) is never blocked. -/
def priceBlocks (ord : Models.Order) (p : Decimal) : Bool :=
  match ord.price with
  | some limit =>
    match ord.side with
    | Models.OrderSide.Buy => decide (limit < p)
    | Models.OrderSide.Sell => decide (p < limit)
  | none => false

/-- The level walk of `match_bid` / `match_ask`: take the best level, stop on
the price condition or when the order is no longer active, and garbage-collect
a level whose queue empties (`retain`, modeled at the point the level is
consumed). -/
def matchLevelsE (now : Nat) :
    Models.Order → List (Decimal × List Models.Order) →
      Models.Order × List (Decimal × List Models.Order) × List TradeExecution
  | ord, [] => (ord, [], [])
  | ord, (p, q) :: rest =>
    if ord.is_active then
      if priceBlocks ord p then (ord, (p, q) :: rest, [])
      else
        let r := matchQueueE now p ord q
        if r.2.1.isEmpty then
          let r2 := matchLevelsE now r.1 rest
          (r2.1, r2.2.1, r.2.2 ++ r2.2.2)
        else (r.1, (p, r.2.1) :: rest, r.2.2)
    else (ord, (p, q) :: rest, [])

/-- `OrderBook::add_limit_order` (engine.rs lines 190-198): insert at the
order's price level only when a price is present. -/
def OrderBook.add_limit_order (b : OrderBook) (o : Models.Order) : OrderBook :=
  match o.price with
  | some price =>
    match o.side with
    | Models.OrderSide.Buy =>
      { b with bids := Matching.insertLevelDesc b.bids price o }
    | Models.OrderSide.Sell =>
      { b with asks := Matching.insertLevelAsc b.asks price o }
  | none => b

/-- `OrderBook::process` (engine.rs lines 44-60): match, then — when the
order is not closed — rest a Limit remainder, or mark a Market remainder
`Canceled` without resting it. Total function: no error path. -/
def OrderBook.process (b : OrderBook) (order : Models.Order) (now : Nat) :
    MatchingResult × OrderBook :=
  let step :=
    match order.side with
    | Models.OrderSide.Buy =>
      let r := matchLevelsE now order b.asks
      (r.1, { b with asks := r.2.1 }, r.2.2)
    | Models.OrderSide.Sell =>
      let r := matchLevelsE now order b.bids
      (r.1, { b with bids := r.2.1 }, r.2.2)
  let ord1 := step.1
  let b1 := step.2.1
  let trades := step.2.2
  if ord1.is_closed then (⟨ord1, trades⟩, b1)
  else
    match ord1.order_type with
    | Models.OrderType.Limit => (⟨ord1, trades⟩, b1.add_limit_order ord1)
    | Models.OrderType.Market =>
      (⟨{ ord1 with status := Models.OrderStatus.Canceled }, trades⟩, b1)
    | _ => (⟨ord1, trades⟩, b1)

/-- An order id occurring somewhere among the resting orders of the book. -/
def OrderBook.hasOrderId (b : OrderBook) (i : Nat) : Prop :=
  (∃ pq ∈ b.bids, ∃ o ∈ pq.2, Models.Order.id o = i) ∨
    (∃ pq ∈ b.asks, ∃ o ∈ pq.2, Models.Order.id o = i)

end Engine

namespace Inventory

/-- `AssetBalance` from `engine/src/matching/inventory_mgr.rs`. -/
structure AssetBalance where
  asset_name : String
  total : Decimal
  locked : Decimal
  avg_entry_price : Decimal
deriving DecidableEq

/-- `AssetBalance::new`. -/
def AssetBalance.new (name : String) : AssetBalance := ⟨name, 0, 0, 0⟩

/-- `AssetBalance::available`: `total - locked`. -/
def AssetBalance.available (b : AssetBalance) : Decimal := b.total - b.locked

/-- `InventoryManager`: the `HashMap<String, AssetBalance>` ledger, modeled
as an association list with unique keys. -/
structure InventoryManager where
  balances : List (String × AssetBalance)
deriving DecidableEq

/-- `InventoryManager::new`. -/
def InventoryManager.new : InventoryManager := ⟨[]⟩

/-- `balances.get(asset)`. -/
def getBal (m : InventoryManager) (asset : String) : Option AssetBalance :=
  List.lookup asset m.balances

/-- `balances.insert(asset, v)` (replaces any existing entry). -/
def setBal (m : InventoryManager) (asset : String) (v : AssetBalance) :
    InventoryManager :=
  ⟨(asset, v) :: m.balances.filter (fun p => p.1 != asset)⟩

/-- `balances.entry(asset).or_insert_with(|| AssetBalance::new(asset))`:
the entry's value, a fresh zero balance when absent. -/
def getOrNew (m : InventoryManager) (asset : String) : AssetBalance :=
  (getBal m asset).getD (AssetBalance.new asset)

/-- `InventoryManager::deposit`. -/
def deposit (m : InventoryManager) (asset : String) (amount : Decimal) :
    InventoryManager :=
  let e := getOrNew m asset
  setBal m asset { e with total := e.total + amount }

/-- `InventoryManager::withdraw`. The pair returns the call's result and the
manager state after the call (`&mut self` in the source). -/
def withdraw (m : InventoryManager) (asset : String) (amount : Decimal) :
    Except AlphaError Unit × InventoryManager :=
  match getBal m asset with
  | none => (Except.error (AlphaError.UnknownAsset asset), m)
  | some e =>
    if e.available < amount then
      (Except.error (AlphaError.RiskViolation "Insufficient Funds"
        (toString e.available) (toString amount)), m)
    else
      (Except.ok (), setBal m asset { e with total := e.total - amount })

/-- `InventoryManager::lock_funds`. The `entry().or_insert_with` call
materializes a zero balance even when the check then fails. -/
def lock_funds (m : InventoryManager) (asset : String) (amount : Decimal) :
    Except AlphaError Unit × InventoryManager :=
  let e := getOrNew m asset
  let m1 := setBal m asset e
  if e.available < amount then
    (Except.error (AlphaError.RiskViolation "Insufficient Balance for Order"
      (toString e.available) (toString amount)), m1)
  else
    (Except.ok (), setBal m1 asset { e with locked := e.locked + amount })

/-- `InventoryManager::unlock_funds`: unlocking more than is locked clamps
`locked` to zero (logged CRITICAL in the source) instead of failing. -/
def unlock_funds (m : InventoryManager) (asset : String) (amount : Decimal) :
    Except AlphaError Unit × InventoryManager :=
  match getBal m asset with
  | none => (Except.error (AlphaError.UnknownAsset asset), m)
  | some e =>
    if e.locked < amount then
      (Except.ok (), setBal m asset { e with locked := 0 })
    else
      (Except.ok (), setBal m asset { e with locked := e.locked - amount })

/-- `InventoryManager::commit_trade` (inventory_mgr.rs lines 135-206):
settle one trade leg by leg; the debited leg's `locked` is clamped to zero
when the debit exceeds it. -/
def commit_trade (m : InventoryManager) (base quote : String)
    (side : Matching.Side) (qty price fee : Decimal) :
    Except AlphaError Unit × InventoryManager :=
  let cost := qty * price
  match side with
  | Matching.Side.Bid =>
    match getBal m quote with
    | none => (Except.error (AlphaError.Fatal
        "Quote asset missing during settlement"), m)
    | some qb =>
      let qb1 := { qb with
        total := qb.total - cost,
        locked := if cost ≤ qb.locked then qb.locked - cost else 0 }
      let m1 := setBal m quote qb1
      let bb := getOrNew m1 base
      let old_val := bb.total * bb.avg_entry_price
      let new_val := qty * price
      let new_total := bb.total + qty - fee
      let bb1 := { bb with
        avg_entry_price := if 0 < new_total then
          (old_val + new_val) / (bb.total + qty) else bb.avg_entry_price,
        total := new_total }
      (Except.ok (), setBal m1 base bb1)
  | Matching.Side.Ask =>
    match getBal m base with
    | none => (Except.error (AlphaError.Fatal
        "Base asset missing during settlement"), m)
    | some bb =>
      let bb1 := { bb with
        total := bb.total - qty,
        locked := if qty ≤ bb.locked then bb.locked - qty else 0 }
      let m1 := setBal m base bb1
      let qb := getOrNew m1 quote
      let qb1 := { qb with total := qb.total + cost - fee }
      (Except.ok (), setBal m1 quote qb1)

/-- The per-asset inventory invariant: `total ≥ locked ≥ 0`. -/
def BalOk (b : AssetBalance) : Prop := 0 ≤ b.locked ∧ b.locked ≤ b.total

instance (b : AssetBalance) : Decidable (BalOk b) := by
  unfold BalOk; infer_instance

/-- The invariant over every asset balance of the manager. -/
def InvOk (m : InventoryManager) : Prop := ∀ pb ∈ m.balances, BalOk pb.2

instance (m : InventoryManager) : Decidable (InvOk m) := by
  unfold InvOk; infer_instance

end Inventory

namespace Risk

/-- `CircuitState` from `engine/src/risk/circuit_breaker.rs`. -/
inductive CircuitState where
  | Closed
  | Open
  | HalfOpen
deriving DecidableEq

/-- `BreakerConfig`. The `cooldown_period: Duration` field is omitted: it is
consulted by no embedded operation. -/
structure BreakerConfig where
  max_drawdown_per_minute : Decimal
  max_consecutive_errors : Nat
deriving DecidableEq

/-- `CircuitBreaker` plus its `InternalState` (circuit_breaker.rs lines
38-61), flattened. `global_stop` models the process-wide
`risk::GLOBAL_EMERGENCY_STOP` atomic that `trigger_emergency_stop()` sets;
the `Instant` fields (`last_trip_time`, `window_start`) are wall-clock-only
and unused by the operations below. -/
structure CircuitBreaker where
  is_tripped : Bool
  status : CircuitState
  accumulated_loss : Decimal
  consecutive_errors : Nat
  last_error_reason : String
  config : BreakerConfig
  global_stop : Bool
deriving DecidableEq

/-- `CircuitBreaker::new` (with the global kill switch at its process-start
value `false`). -/
def CircuitBreaker.new (config : BreakerConfig) : CircuitBreaker :=
  ⟨false, CircuitState.Closed, 0, 0, "", config, false⟩

/-- `CircuitBreaker::ensure_closed`: the hot-path check (circuit_breaker.rs
lines 82-94). -/
def ensure_closed (cb : CircuitBreaker) : Except AlphaError Unit :=
  if cb.is_tripped then
    Except.error (AlphaError.RiskViolation "CIRCUIT_BREAKER_TRIPPED" "0" "1")
  else Except.ok ()

/-- `CircuitBreaker::trip_breaker` (lines 141-160): Open the breaker, set the
atomic flag, trigger the global emergency stop. The `reason_code`/`details`
arguments are only logged and carry no state. -/
def trip_breaker (cb : CircuitBreaker) : CircuitBreaker :=
  { cb with
    status := CircuitState.Open,
    is_tripped := true,
    global_stop := true }

/-- `CircuitBreaker::record_error` (lines 126-138). -/
def record_error (cb : CircuitBreaker) (error_msg : String) : CircuitBreaker :=
  let cb1 := { cb with
    consecutive_errors := cb.consecutive_errors + 1,
    last_error_reason := error_msg }
  if cb1.config.max_consecutive_errors ≤ cb1.consecutive_errors then
    trip_breaker cb1
  else cb1

/-- `CircuitBreaker::record_pnl` (lines 97-123). `window_expired` stands for
the wall-clock test `window_start.elapsed() > 60s`. -/
def record_pnl (cb : CircuitBreaker) (pnl : Decimal) (window_expired : Bool) :
    CircuitBreaker :=
  let cb1 := if window_expired then { cb with accumulated_loss := 0 } else cb
  if pnl < 0 then
    let cb2 := { cb1 with accumulated_loss := cb1.accumulated_loss + |pnl| }
    if cb2.config.max_drawdown_per_minute < cb2.accumulated_loss then
      trip_breaker cb2
    else cb2
  else { cb1 with consecutive_errors := 0 }

/-- `CircuitBreaker::manual_reset` (lines 163-182): a no-op unless Open;
returns `Ok(())` in the source either way (the state is what matters here).
Note it does not clear the global emergency stop. -/
def manual_reset (cb : CircuitBreaker) : CircuitBreaker :=
  if cb.status ≠ CircuitState.Open then cb
  else
    { cb with
      status := CircuitState.Closed,
      accumulated_loss := 0,
      consecutive_errors := 0,
      is_tripped := false }

/-- `TradeConstraints` from `engine/src/risk/pre_trade_check.rs`. -/
structure TradeConstraints where
  min_price : Decimal
  max_price : Decimal
  min_quantity : Decimal
  max_quantity : Decimal
  min_notional : Decimal
  max_notional : Decimal
  max_price_deviation : Decimal
deriving DecidableEq

/-- `PreTradeCheck::reject` (pre_trade_check.rs lines 110-118): every
rejection built here carries the fixed rule `PRE_TRADE_VALIDATION` and the
placeholder limit `See Constraints`; `reason` is only logged. -/
def reject (reason : String) (value : Decimal) : AlphaError :=
  AlphaError.RiskViolation "PRE_TRADE_VALIDATION" "See Constraints"
    (toString value)

/-- `PreTradeCheck::validate` (pre_trade_check.rs lines 42-107). -/
def validate (c : TradeConstraints) (o : Matching.Order)
    (reference_price : Option Decimal) : Except AlphaError Unit :=
  if o.quantity ≤ 0 then
    Except.error (reject "Zero or Negative Quantity" o.quantity)
  else if o.order_type = Matching.OrderType.Limit ∧ o.price ≤ 0 then
    Except.error (reject "Zero or Negative Price for Limit Order" o.price)
  else if o.quantity < c.min_quantity then
    Except.error (reject "Quantity below minimum allowed" o.quantity)
  else if c.max_quantity < o.quantity then
    Except.error (reject "Quantity exceeds maximum allowed" o.quantity)
  else
    let estimated_price := if 0 < o.price then o.price
      else reference_price.getD 1
    let notional := estimated_price * o.quantity
    if notional < c.min_notional then
      Except.error (reject "Order value too small (Dust)" notional)
    else if c.max_notional < notional then
      Except.error (reject "FAT FINGER PROTECTION: Order value too high"
        notional)
    else
      match reference_price with
      | some ref_price =>
        if 0 < ref_price ∧ o.order_type = Matching.OrderType.Limit then
          let deviation := |o.price - ref_price| / ref_price
          if c.max_price_deviation < deviation then
            Except.error (AlphaError.RiskViolation "PRICE_BAND"
              (toString c.max_price_deviation) (toString deviation))
          else Except.ok ()
        else Except.ok ()
      | none => Except.ok ()

end Risk

namespace Pulse

/-- `ComponentHealth` from `shield/sentinel/pulse_monitor.rs`. -/
inductive ComponentHealth where
  | Healthy
  | Lagging (ms : Nat)
  | Unresponsive (ms : Nat)
deriving DecidableEq

/-- The per-component body of `PulseMonitor::check_system_health`
(pulse_monitor.rs lines 83-102): skip when the clock went backwards,
`Unresponsive` when silence exceeds the limit, `Lagging` when it exceeds
half the limit, no report entry otherwise. A registry entry is
`(name, (last_beat_ms, max_silence_ms))`. -/
def classify (now : Nat) (entry : String × Nat × Nat) :
    Option (String × ComponentHealth) :=
  match entry with
  | (name, last, limit) =>
    if now < last then none
    else
      let silence := now - last
      if limit < silence then some (name, ComponentHealth.Unresponsive silence)
      else if limit / 2 < silence then some (name, ComponentHealth.Lagging silence)
      else none

/-- `PulseMonitor::check_system_health` over the registry snapshot. -/
def check_system_health (registry : List (String × Nat × Nat)) (now : Nat) :
    List (String × ComponentHealth) :=
  registry.filterMap (classify now)

/-- One iteration of `PulseMonitor::start_monitoring_loop`'s body
(pulse_monitor.rs lines 110-122): run the health check and walk the issues.
The `Unresponsive` arm holds no executable statement — the kill-switch call
(`crate::risk::emergency_stop()`) is commented out — so the emergency-stop
flag passes through unchanged. -/
def monitoring_tick (emergency_stop : Bool)
    (registry : List (String × Nat × Nat)) (now : Nat) : Bool :=
  (check_system_health registry now).foldl (fun stop _issue => stop)
    emergency_stop

end Pulse

namespace Latency

/-- `MetricType` from `engine/src/matching/latency_tracker.rs`. -/
inductive MetricType where
  | OrderIngress
  | RiskCheck
  | MatchingLogic
  | PersistState
  | TotalRoundtrip
deriving DecidableEq

/-- `LatencyBuckets` (latency_tracker.rs lines 30-44). The u64 counters are
modeled as `Nat`. -/
structure LatencyBuckets where
  count : Nat
  min_ns : Nat
  max_ns : Nat
  sum_ns : Nat
  micros_1 : Nat
  micros_10 : Nat
  micros_100 : Nat
  millis_1 : Nat
  slow : Nat
deriving DecidableEq

/-- `LatencyBuckets::default()`: all zero. -/
def LatencyBuckets.init : LatencyBuckets := ⟨0, 0, 0, 0, 0, 0, 0, 0, 0⟩

/-- The bucket update of `LatencyTracker::record` (latency_tracker.rs lines
64-100): count, sum, min (with 0 as "unset" sentinel), max, and exactly one
distribution bucket. -/
def recordBucket (b : LatencyBuckets) (duration_ns : Nat) : LatencyBuckets :=
  let b := { b with count := b.count + 1, sum_ns := b.sum_ns + duration_ns }
  let b := if b.min_ns = 0 ∨ duration_ns < b.min_ns then
      { b with min_ns := duration_ns } else b
  let b := if b.max_ns < duration_ns then { b with max_ns := duration_ns }
    else b
  if duration_ns < 1000 then { b with micros_1 := b.micros_1 + 1 }
  else if duration_ns < 10000 then { b with micros_10 := b.micros_10 + 1 }
  else if duration_ns < 100000 then { b with micros_100 := b.micros_100 + 1 }
  else if duration_ns < 1000000 then { b with millis_1 := b.millis_1 + 1 }
  else { b with slow := b.slow + 1 }

/-- The tracker's stats map: one bucket per metric, with absent entries read as
the default (`entry().or_insert_with(LatencyBuckets::default)`). -/
def LatencyTracker : Type := MetricType → LatencyBuckets

/-- `LatencyTracker::new`. -/
def LatencyTracker.new : LatencyTracker := fun _ => LatencyBuckets.init

/-- `LatencyTracker::record`. -/
def record (t : LatencyTracker) (metric : MetricType) (duration_ns : Nat) :
    LatencyTracker :=
  fun m => if m = metric then recordBucket (t metric) duration_ns else t m

/-- A sequence of `record` calls. -/
def recordAll (t : LatencyTracker) (calls : List (MetricType × Nat)) :
    LatencyTracker :=
  calls.foldl (fun t c => record t c.1 c.2) t

/-- The histogram invariant of one bucket: count equals the bucket sum, the
min/max sentinels are zero while empty, and min ≤ max once nonempty. -/
def BucketInv (b : LatencyBuckets) : Prop :=
  b.count = b.micros_1 + b.micros_10 + b.micros_100 + b.millis_1 + b.slow ∧
  (b.count = 0 → b.min_ns = 0 ∧ b.max_ns = 0) ∧
  (0 < b.count → b.min_ns ≤ b.max_ns)

end Latency

/-! Concrete fixtures used by witnesses and counterexamples. -/

/-- A resting ask maker for the `matching` book. -/
def makerM : Matching.Order :=
  ⟨1, 1, Matching.Side.Ask, Matching.OrderType.Limit, 100, 5, 0, "m"⟩

/-- A crossing bid taker for the `matching` book. -/
def takerM : Matching.Order :=
  ⟨2, 1, Matching.Side.Bid, Matching.OrderType.Limit, 100, 1, 0, "t"⟩

/-- A `matching` book holding only `makerM` at price 100. -/
def bookM : Matching.OrderBook := ⟨1, [], [(100, [makerM])], []⟩

/-- A Market bid for the `matching` book (the matching book carries a plain
`price` field; 100 here). -/
def marketTakerM : Matching.Order :=
  ⟨9, 1, Matching.Side.Bid, Matching.OrderType.Market, 100, 1, 0, "mk"⟩

/-- A resting sell maker for the `engine` (models-path) book. -/
def makerE : Models.Order :=
  ⟨1, "m", none, "s", "S", "X", Models.OrderSide.Sell,
    Models.OrderType.Limit, Models.TimeInForce.GTC, 5, 0, some 100, none,
    none, Models.OrderStatus.New, 0, 0⟩

/-- A crossing limit buy taker for the `engine` book. -/
def takerE : Models.Order :=
  ⟨2, "t", none, "s", "S", "X", Models.OrderSide.Buy,
    Models.OrderType.Limit, Models.TimeInForce.GTC, 1, 0, some 100, none,
    none, Models.OrderStatus.New, 0, 0⟩

/-- An `engine` book holding only `makerE` at price 100. -/
def bookE : Engine.OrderBook := ⟨"S", [], [(100, [makerE])]⟩

/-- An empty `engine` book. -/
def emptyBookE : Engine.OrderBook := ⟨"S", [], []⟩

/-- A Market buy order (`price = None`) in `New` status for the `engine`
book. -/
def marketTaker : Models.Order :=
  ⟨9, "mk", none, "s", "S", "X", Models.OrderSide.Buy,
    Models.OrderType.Market, Models.TimeInForce.GTC, 1, 0, none, none,
    none, Models.OrderStatus.New, 0, 0⟩

/-- A ledger with one asset: 100 USD total, 10 locked. -/
def ledger0 : Inventory.InventoryManager := ⟨[("USD", ⟨"USD", 100, 10, 0⟩)]⟩

/-- A ledger with 1 USD total, all of it locked (a valid state). -/
def ledgerTight : Inventory.InventoryManager := ⟨[("USD", ⟨"USD", 1, 1, 0⟩)]⟩

/-- A fresh breaker configured with `max_consecutive_errors = 3`. -/
def freshBreaker : Risk.CircuitBreaker := Risk.CircuitBreaker.new ⟨1000, 3⟩

/-- `freshBreaker` after exactly three `record_error` calls. -/
def trippedBreaker : Risk.CircuitBreaker :=
  Risk.record_error (Risk.record_error (Risk.record_error freshBreaker "e1")
    "e2") "e3"

/-- Concrete pre-trade constraints: quantity band [1, 1000], notional band
[0, 1000000], max price deviation 1/10. -/
def ptc0 : Risk.TradeConstraints := ⟨0, 1000000, 1, 1000, 0, 1000000, 1/10⟩

/-- A limit bid whose quantity (1/2) is below `ptc0`'s minimum quantity. -/
def smallOrder : Matching.Order :=
  ⟨11, 1, Matching.Side.Bid, Matching.OrderType.Limit, 10, 1/2, 0, "w"⟩

/-- A concrete sequence of latency record calls: two on MatchingLogic (one
fast, one slow), one on RiskCheck. -/
def demoCalls : List (Latency.MetricType × Nat) :=
  [(Latency.MetricType.MatchingLogic, 500),
   (Latency.MetricType.MatchingLogic, 2000000),
   (Latency.MetricType.RiskCheck, 5)]

end Alpha

namespace Alpha.Matching

theorem indexLookup_indexRemove (idx : List (Nat × OrderLocation)) (id : Nat) :
    indexLookup (indexRemove idx id) id = none := by
  induction idx with
  | nil => rfl
  | cons p rest ih =>
    by_cases h : p.1 = id
    · simpa [indexRemove, indexLookup, h] using ih
    · simp only [indexRemove, List.filter] at ih ⊢
      have hb : (p.1 != id) = true := by simpa using h
      simp [hb, indexLookup, List.lookup, show (id == p.1) = false by
        simpa using fun hc => h hc.symm]
      simpa [indexRemove, indexLookup] using ih

theorem cancel_order_of_lookup_none (b : OrderBook) (id : Nat)
    (h : indexLookup b.order_index id = none) :
    b.cancel_order id = (false, b) := by
  unfold OrderBook.cancel_order
  rw [h]

theorem cancel_order_index_removed (b : OrderBook) (id : Nat) :
    indexLookup ((b.cancel_order id).2).order_index id = none := by
  unfold OrderBook.cancel_order
  cases h : indexLookup b.order_index id with
  | none => exact h
  | some loc =>
    cases hs : loc.side with
    | Bid =>
      cases hr : levelRemove b.bids loc.price id <;>
        simp [hs, hr, indexLookup_indexRemove]
    | Ask =>
      cases hr : levelRemove b.asks loc.price id <;>
        simp [hs, hr, indexLookup_indexRemove]

/-- C8 — Cancel idempotence: whatever `cancel_order(id)` did the first time,
the second call returns `false` and leaves the book (bids, asks and the id
index) exactly as the first call left it. -/
theorem cancel_order_idempotent (b : OrderBook) (id : Nat) :
    ((b.cancel_order id).2).cancel_order id = (false, (b.cancel_order id).2) :=
  cancel_order_of_lookup_none _ id (cancel_order_index_removed b id)

theorem matchQueue_time (tid : Nat) (ts : Side) (n : Nat) (p : Decimal)
    (q : List Order) (qty : Decimal) :
    matchQueue tid ts n p qty q =
      ⟨(matchQueue tid ts 0 p qty q).remaining,
        (matchQueue tid ts 0 p qty q).queue,
        ((matchQueue tid ts 0 p qty q).trades).map (·.withTime n),
        (matchQueue tid ts 0 p qty q).removed⟩ := by
  induction q generalizing qty with
  | nil => simp [matchQueue]
  | cons m rest ih =>
    by_cases h1 : 0 < qty
    · by_cases h2 : m.quantity - min qty m.quantity = 0
      · simp [matchQueue, h1, h2, ih, Trade.withTime]
      · simp [matchQueue, h1, h2, Trade.withTime]
    · simp [matchQueue, h1]

theorem matchLevels_time (tid : Nat) (ts : Side) (n : Nat)
    (cross : Decimal → Bool) (levels : List (Decimal × List Order))
    (qty : Decimal) :
    matchLevels tid ts n cross qty levels =
      ⟨(matchLevels tid ts 0 cross qty levels).remaining,
        (matchLevels tid ts 0 cross qty levels).levels,
        ((matchLevels tid ts 0 cross qty levels).trades).map (·.withTime n),
        (matchLevels tid ts 0 cross qty levels).removed⟩ := by
  induction levels generalizing qty with
  | nil => simp [matchLevels]
  | cons lvl rest ih =>
    obtain ⟨p, q⟩ := lvl
    by_cases h1 : 0 < qty
    · by_cases h2 : cross p
      · by_cases h3 : ((matchQueue tid ts 0 p qty q).queue).isEmpty
        · simp [matchLevels, h1, h2, matchQueue_time tid ts n p q qty, h3, ih]
        · simp [matchLevels, h1, h2, matchQueue_time tid ts n p q qty, h3]
      · simp [matchLevels, h1, h2]
    · simp [matchLevels, h1]

theorem process_order_time (b : OrderBook) (o : Order) (n : Nat) :
    b.process_order o n =
      (⟨((b.process_order o 0).1.trades).map (·.withTime n),
        (b.process_order o 0).1.remaining_qty,
        (b.process_order o 0).1.status⟩,
       (b.process_order o 0).2) := by
  cases hs : o.side with
  | Bid =>
    simp only [OrderBook.process_order, OrderBook.match_bid, hs,
      matchLevels_time o.id Side.Bid n _ b.asks o.quantity]
    by_cases h1 :
        0 < (matchLevels o.id Side.Bid 0
          (fun p => decide (p ≤ o.price)) o.quantity b.asks).remaining
    · cases ht :
          (matchLevels o.id Side.Bid 0
            (fun p => decide (p ≤ o.price)) o.quantity b.asks).trades
        <;> simp [h1, ht]
    · simp [h1]
  | Ask =>
    simp only [OrderBook.process_order, OrderBook.match_ask, hs,
      matchLevels_time o.id Side.Ask n _ b.bids o.quantity]
    by_cases h1 :
        0 < (matchLevels o.id Side.Ask 0
          (fun p => decide (o.price ≤ p)) o.quantity b.bids).remaining
    · cases ht :
          (matchLevels o.id Side.Ask 0
            (fun p => decide (o.price ≤ p)) o.quantity b.bids).trades
        <;> simp [h1, ht]
    · simp [h1]

theorem applyLog_decompose (n : Nat) (log : List Command) (b : OrderBook)
    (ts : List Trade) :
    log.foldl (applyCommand n) (b, ts) =
      ((log.foldl (applyCommand n) (b, [])).1,
        ts ++ (log.foldl (applyCommand n) (b, [])).2) := by
  induction log generalizing b ts with
  | nil => simp
  | cons c rest ih =>
    cases c with
    | placeOrder o =>
      simp only [List.foldl_cons, applyCommand, List.nil_append]
      rw [ih ((b.process_order o n).2) (ts ++ (b.process_order o n).1.trades),
        ih ((b.process_order o n).2) ((b.process_order o n).1.trades)]
      simp [List.append_assoc]
    | cancelOrder id =>
      simp only [List.foldl_cons, applyCommand]
      exact ih _ ts

theorem applyLog_time (n : Nat) (log : List Command) (b : OrderBook) :
    log.foldl (applyCommand n) (b, []) =
      ((log.foldl (applyCommand 0) (b, [])).1,
        ((log.foldl (applyCommand 0) (b, [])).2).map (·.withTime n)) := by
  induction log generalizing b with
  | nil => simp
  | cons c rest ih =>
    cases c with
    | placeOrder o =>
      simp only [List.foldl_cons, applyCommand, process_order_time b o n]
      rw [applyLog_decompose n rest, applyLog_decompose 0 rest, ih]
      simp
    | cancelOrder id =>
      simp only [List.foldl_cons, applyCommand]
      exact ih _

/-- C1 (amended) — Replay determinism up to trade timestamps: replaying the
same `PlaceOrder`/`CancelOrder` log from an empty book at any two wall-clock
readings produces identical book states (bids, asks, id index) and identical
trade lists in every field except `executed_at`, which is read from the wall
clock (`chrono::Utc::now()` in `match_bid`/`match_ask`) and therefore differs
between the original run and a later replay. -/
theorem replay_deterministic_up_to_timestamps (sym : Nat) (log : List Command)
    (n1 n2 : Nat) :
    (replay n1 sym log).1 = (replay n2 sym log).1 ∧
      ((replay n1 sym log).2).map Trade.eraseTime =
        ((replay n2 sym log).2).map Trade.eraseTime := by
  unfold replay
  rw [applyLog_time n1 log, applyLog_time n2 log]
  refine ⟨rfl, ?_⟩
  simp only [List.map_map]
  rfl

/-- C1 (counterexample) — The claim's "identical trade list, trade-for-trade
including every Trade field" fails on the code: `executed_at` is stamped from
the wall clock at execution time, so replaying `demoLog` at a later clock
reading (here 1 ns instead of 0 ns) produces a trade list that differs in
`executed_at`, even though the books agree. -/
theorem replay_trades_differ_by_wallclock :
    (replay 0 1 demoLog).2 ≠ (replay 1 1 demoLog).2 ∧
      (replay 0 1 demoLog).1 = (replay 1 1 demoLog).1 := by
  constructor
  · with_unfolding_all decide
  · with_unfolding_all decide

theorem matchQueue_trades_spec (tid : Nat) (ts : Side) (n : Nat) (p : Decimal)
    (q : List Order) :
    ∀ (qty : Decimal) (t : Trade),
      t ∈ (matchQueue tid ts n p qty q).trades →
      t.price = p ∧ t.maker_order_id ∈ q.map (·.id) := by
  induction q with
  | nil =>
    intro qty t ht
    simp [matchQueue] at ht
  | cons m rest ih =>
    intro qty t ht
    by_cases h1 : 0 < qty
    · by_cases h2 : m.quantity - min qty m.quantity = 0
      · simp [matchQueue, h1, h2] at ht
        rcases ht with h | h
        · subst h
          exact ⟨rfl, by simp⟩
        · obtain ⟨hp, hm⟩ := ih _ t h
          exact ⟨hp, by simp at hm ⊢; exact Or.inr hm⟩
      · simp [matchQueue, h1, h2] at ht
        subst ht
        exact ⟨rfl, by simp⟩
    · simp [matchQueue, h1] at ht

theorem matchLevels_trades_spec (tid : Nat) (ts : Side) (n : Nat)
    (cross : Decimal → Bool) (levels : List (Decimal × List Order)) :
    ∀ (qty : Decimal) (t : Trade),
      t ∈ (matchLevels tid ts n cross qty levels).trades →
      ∃ q, (t.price, q) ∈ levels ∧ t.maker_order_id ∈ q.map (·.id) := by
  induction levels with
  | nil =>
    intro qty t ht
    simp [matchLevels] at ht
  | cons lvl rest ih =>
    obtain ⟨p, q⟩ := lvl
    intro qty t ht
    by_cases h1 : 0 < qty
    · by_cases h2 : cross p
      · by_cases h3 : ((matchQueue tid ts n p qty q).queue).isEmpty
        · simp only [matchLevels, h1, h2, h3, if_true, if_pos,
            List.mem_append] at ht
          rcases ht with h | h
          · obtain ⟨hp, hm⟩ := matchQueue_trades_spec tid ts n p q qty t h
            exact ⟨q, by rw [hp]; exact List.mem_cons_self _ _, hm⟩
          · obtain ⟨q', hq', hm⟩ := ih _ t h
            exact ⟨q', List.mem_cons_of_mem _ hq', hm⟩
        · simp only [matchLevels, h1, h2, h3, if_true, if_pos, if_neg] at ht
          obtain ⟨hp, hm⟩ := matchQueue_trades_spec tid ts n p q qty t ht
          exact ⟨q, by rw [hp]; exact List.mem_cons_self _ _, hm⟩
      · simp [matchLevels, h1, h2] at ht
    · simp [matchLevels, h1] at ht

theorem process_order_maker_price (b : OrderBook) (o : Order) (n : Nat)
    (t : Trade) (ht : t ∈ ((b.process_order o n).1).trades) :
    ∃ q, (t.price, q) ∈ (match o.side with
        | Side.Bid => b.asks
        | Side.Ask => b.bids) ∧
      t.maker_order_id ∈ q.map (·.id) := by
  cases hs : o.side with
  | Bid =>
    simp only [hs]
    simp only [OrderBook.process_order, OrderBook.match_bid, hs] at ht
    have ht' : t ∈ (matchLevels o.id Side.Bid n
        (fun p => decide (p ≤ o.price)) o.quantity b.asks).trades := by
      by_cases h1 : 0 < (matchLevels o.id Side.Bid n
          (fun p => decide (p ≤ o.price)) o.quantity b.asks).remaining <;>
        simpa [h1] using ht
    exact matchLevels_trades_spec _ _ _ _ b.asks o.quantity t ht'
  | Ask =>
    simp only [hs]
    simp only [OrderBook.process_order, OrderBook.match_ask, hs] at ht
    have ht' : t ∈ (matchLevels o.id Side.Ask n
        (fun p => decide (o.price ≤ p)) o.quantity b.bids).trades := by
      by_cases h1 : 0 < (matchLevels o.id Side.Ask n
          (fun p => decide (o.price ≤ p)) o.quantity b.bids).remaining <;>
        simpa [h1] using ht
    exact matchLevels_trades_spec _ _ _ _ b.bids o.quantity t ht'

/-- C6 — Price-time priority: with two makers `A` then `B` resting at the same
price `p` (A inserted first, so A is at the front of the level FIFO), a
crossing taker whose quantity is positive and at most `A`'s remaining quantity
trades against `A` only: the produced trade list references exactly `A` as
maker, and `B` remains resting at `p` completely unchanged (in particular its
quantity). Stated for both taker sides. -/
theorem price_time_priority (sym : Nat) (idx : List (Nat × OrderLocation))
    (sameSide : List (Decimal × List Order)) (p : Decimal)
    (A B taker : Order) (now : Nat) (b : OrderBook)
    (hq : 0 < taker.quantity) (hle : taker.quantity ≤ A.quantity)
    (hcross : match taker.side with
      | Side.Bid => p ≤ taker.price
      | Side.Ask => taker.price ≤ p)
    (hb : b = (match taker.side with
      | Side.Bid => ⟨sym, sameSide, [(p, [A, B])], idx⟩
      | Side.Ask => ⟨sym, [(p, [A, B])], sameSide, idx⟩)) :
    (((b.process_order taker now).1).trades).map (·.maker_order_id) = [A.id] ∧
    ∃ q, (p, q) ∈ (match taker.side with
        | Side.Bid => ((b.process_order taker now).2).asks
        | Side.Ask => ((b.process_order taker now).2).bids) ∧ B ∈ q := by
  have hx : min taker.quantity A.quantity = taker.quantity := min_eq_left hle
  have hz : taker.quantity - taker.quantity = 0 := sub_self _
  cases hside : taker.side with
  | Bid =>
    have hcross' : p ≤ taker.price := by simpa [hside] using hcross
    subst hb
    by_cases hA : A.quantity - taker.quantity = 0
    · simp [OrderBook.process_order, OrderBook.match_bid, matchLevels,
        matchQueue, hside, hq, hcross', hx, hA, hz, lt_self_iff_false]
    · simp [OrderBook.process_order, OrderBook.match_bid, matchLevels,
        matchQueue, hside, hq, hcross', hx, hA, hz, lt_self_iff_false]
  | Ask =>
    have hcross' : taker.price ≤ p := by simpa [hside] using hcross
    subst hb
    by_cases hA : A.quantity - taker.quantity = 0
    · simp [OrderBook.process_order, OrderBook.match_ask, matchLevels,
        matchQueue, hside, hq, hcross', hx, hA, hz, lt_self_iff_false]
    · simp [OrderBook.process_order, OrderBook.match_ask, matchLevels,
        matchQueue, hside, hq, hcross', hx, hA, hz, lt_self_iff_false]

/-- Witness for C6: a taker bid of quantity 3 against makers A (id 1, qty 5)
then B (id 2, qty 5) resting at price 100 trades only with A, and B rests
untouched. -/
theorem price_time_priority_witness :
    (((⟨1, [], [(100, [⟨1, 1, Side.Ask, OrderType.Limit, 100, 5, 0, "a"⟩,
        ⟨2, 1, Side.Ask, OrderType.Limit, 100, 5, 0, "b"⟩])], []⟩ :
        OrderBook).process_order
        ⟨3, 1, Side.Bid, OrderType.Limit, 100, 3, 0, "t"⟩ 0).1.trades).map
          (·.maker_order_id) = [1] ∧
    ∃ q, (100, q) ∈ (match (⟨3, 1, Side.Bid, OrderType.Limit, 100, 3, 0, "t"⟩ :
        Order).side with
      | Side.Bid => (((⟨1, [], [(100, [⟨1, 1, Side.Ask, OrderType.Limit, 100, 5, 0, "a"⟩,
          ⟨2, 1, Side.Ask, OrderType.Limit, 100, 5, 0, "b"⟩])], []⟩ :
          OrderBook).process_order
          ⟨3, 1, Side.Bid, OrderType.Limit, 100, 3, 0, "t"⟩ 0).2).asks
      | Side.Ask => (((⟨1, [], [(100, [⟨1, 1, Side.Ask, OrderType.Limit, 100, 5, 0, "a"⟩,
          ⟨2, 1, Side.Ask, OrderType.Limit, 100, 5, 0, "b"⟩])], []⟩ :
          OrderBook).process_order
          ⟨3, 1, Side.Bid, OrderType.Limit, 100, 3, 0, "t"⟩ 0).2).bids) ∧
      (⟨2, 1, Side.Ask, OrderType.Limit, 100, 5, 0, "b"⟩ : Order) ∈ q :=
  price_time_priority 1 [] [] 100
    ⟨1, 1, Side.Ask, OrderType.Limit, 100, 5, 0, "a"⟩
    ⟨2, 1, Side.Ask, OrderType.Limit, 100, 5, 0, "b"⟩
    ⟨3, 1, Side.Bid, OrderType.Limit, 100, 3, 0, "t"⟩ 0 _
    (by norm_num) (by norm_num) (by norm_num) rfl

end Alpha.Matching

namespace Alpha.Engine

theorem matchQueueE_inactive (now : Nat) (p : Decimal) (ord : Models.Order)
    (ms : List Models.Order) (h : ord.is_active = false) :
    matchQueueE now p ord ms = (ord, ms, []) := by
  cases ms <;> simp [matchQueueE, h]

theorem matchLevelsE_inactive (now : Nat) (ord : Models.Order)
    (levels : List (Decimal × List Models.Order))
    (h : ord.is_active = false) :
    matchLevelsE now ord levels = (ord, levels, []) := by
  cases levels with
  | nil => simp [matchLevelsE]
  | cons lvl rest => obtain ⟨p, q⟩ := lvl; simp [matchLevelsE, h]

/-- The fields of the aggressor that the match loop leaves unchanged, plus
the only status transitions it performs. -/
def statusLoose (o r : Models.Order) : Prop :=
  r.original_qty = o.original_qty ∧ r.order_type = o.order_type ∧
  r.side = o.side ∧ r.price = o.price ∧
  (r.status = o.status ∨ r.status = Models.OrderStatus.PartiallyFilled ∨
    (r.status = Models.OrderStatus.Filled ∧
      r.original_qty ≤ r.executed_qty))

theorem statusLoose_refl (o : Models.Order) : statusLoose o o :=
  ⟨rfl, rfl, rfl, rfl, Or.inl rfl⟩

theorem matchQueueE_order_spec (now : Nat) (p : Decimal)
    (ms : List Models.Order) :
    ∀ ord : Models.Order, statusLoose ord (matchQueueE now p ord ms).1 := by
  induction ms with
  | nil => intro ord; simpa [matchQueueE] using statusLoose_refl ord
  | cons m rest ih =>
    intro ord
    by_cases ha : ord.is_active
    · by_cases hr : ord.original_qty ≤
          ord.executed_qty + min (ord.original_qty - ord.executed_qty)
            (m.original_qty - m.executed_qty)
      · -- the aggressor fills at this maker; it goes inactive afterwards
        by_cases hm : m.original_qty ≤
            m.executed_qty + min (ord.original_qty - ord.executed_qty)
              (m.original_qty - m.executed_qty)
        · simp only [matchQueueE, ha, if_true, fillStatus, hr, hm, if_pos]
          rw [matchQueueE_inactive now p _ rest (by
            simp [Models.Order.is_active, Models.Order.is_closed])]
          exact ⟨rfl, rfl, rfl, rfl, Or.inr (Or.inr ⟨rfl, by simpa using hr⟩)⟩
        · simp only [matchQueueE, ha, if_true, fillStatus, hr, hm, if_pos,
            if_neg]
          simp [Models.Order.is_closed, Models.Order.is_active]
          exact ⟨rfl, rfl, rfl, rfl, Or.inr (Or.inr ⟨rfl, by simpa using hr⟩)⟩
      · by_cases hm : m.original_qty ≤
            m.executed_qty + min (ord.original_qty - ord.executed_qty)
              (m.original_qty - m.executed_qty)
        · simp only [matchQueueE, ha, if_true, fillStatus, hr, hm, if_pos]
          have := ih { ord with
            executed_qty := ord.executed_qty + min
              (ord.original_qty - ord.executed_qty)
              (m.original_qty - m.executed_qty),
            status := Models.OrderStatus.PartiallyFilled }
          obtain ⟨h1, h2, h3, h4, h5⟩ := this
          refine ⟨by simpa using h1, by simpa using h2, by simpa using h3,
            by simpa using h4, ?_⟩
          rcases h5 with h | h | h
          · exact Or.inr (Or.inl (by simpa using h))
          · exact Or.inr (Or.inl h)
          · exact Or.inr (Or.inr h)
        · simp only [matchQueueE, ha, if_true, fillStatus, hr, hm, if_pos,
            if_neg]
          simp [Models.Order.is_closed, Models.Order.is_active]
          exact ⟨rfl, rfl, rfl, rfl, Or.inr (Or.inl rfl)⟩
    · rw [matchQueueE_inactive now p ord (m :: rest) (by simpa using ha)]
      exact statusLoose_refl ord

theorem matchLevelsE_order_spec (now : Nat)
    (levels : List (Decimal × List Models.Order)) :
    ∀ ord : Models.Order, statusLoose ord (matchLevelsE now ord levels).1 := by
  induction levels with
  | nil => intro ord; simpa [matchLevelsE] using statusLoose_refl ord
  | cons lvl rest ih =>
    obtain ⟨p, q⟩ := lvl
    intro ord
    by_cases ha : ord.is_active
    · by_cases hp : priceBlocks ord p
      · simpa [matchLevelsE, ha, hp] using statusLoose_refl ord
      · have hq := matchQueueE_order_spec now p q ord
        by_cases he : ((matchQueueE now p ord q).2.1).isEmpty
        · simp only [matchLevelsE, ha, hp, he, if_true, if_pos, if_neg,
            Bool.false_eq_true, if_false]
          by_cases ha1 : (matchQueueE now p ord q).1.is_active
          · have hr := ih (matchQueueE now p ord q).1
            obtain ⟨h1, h2, h3, h4, h5⟩ := hr
            obtain ⟨g1, g2, g3, g4, g5⟩ := hq
            refine ⟨h1.trans g1, h2.trans g2, h3.trans g3, h4.trans g4, ?_⟩
            rcases h5 with h | h | h
            · rcases g5 with g | g | g
              · exact Or.inl (h.trans g)
              · exact Or.inr (Or.inl (h.trans g))
              · -- the queue step ended Filled, but then it would be inactive
                exfalso
                rw [Models.Order.is_active, g.1] at ha1
                simp at ha1
            · exact Or.inr (Or.inl h)
            · exact Or.inr (Or.inr h)
          · rw [matchLevelsE_inactive now _ rest (by simpa using ha1)]
            exact hq
        · simp only [matchLevelsE, ha, hp, he, if_true, if_pos, if_neg,
            Bool.false_eq_true, if_false]
          exact hq
    · rw [matchLevelsE_inactive now ord ((p, q) :: rest) (by simpa using ha)]
      exact statusLoose_refl ord

theorem matchQueueE_queue_from (now : Nat) (p : Decimal)
    (ms : List Models.Order) :
    ∀ (ord : Models.Order) (o' : Models.Order),
      o' ∈ (matchQueueE now p ord ms).2.1 →
      ∃ o ∈ ms, o'.id = o.id := by
  induction ms with
  | nil => intro ord o' h; simp [matchQueueE] at h
  | cons m rest ih =>
    intro ord o' h
    by_cases ha : ord.is_active
    · by_cases hm : (({ m with
          executed_qty := m.executed_qty + min
            (ord.original_qty - ord.executed_qty)
            (m.original_qty - m.executed_qty),
          status := fillStatus m.original_qty
            (m.executed_qty + min (ord.original_qty - ord.executed_qty)
              (m.original_qty - m.executed_qty)) } : Models.Order)).is_closed
      · simp only [matchQueueE, ha, if_true, if_pos, hm] at h
        obtain ⟨o, ho, hid⟩ := ih _ o' h
        exact ⟨o, List.mem_cons_of_mem _ ho, hid⟩
      · simp only [matchQueueE, ha, if_true, if_pos, hm,
          Bool.false_eq_true, if_false, List.mem_cons] at h
        rcases h with h | h
        · exact ⟨m, List.mem_cons_self _ _, by rw [h]⟩
        · exact ⟨o', List.mem_cons_of_mem _ h, rfl⟩
    · rw [matchQueueE_inactive now p ord (m :: rest) (by simpa using ha)] at h
      exact ⟨o', h, rfl⟩

theorem levels_from_self (levels : List (Decimal × List Models.Order))
    (pq' : Decimal × List Models.Order) (o' : Models.Order)
    (hpq : pq' ∈ levels) (ho : o' ∈ pq'.2) :
    ∃ pq ∈ levels, ∃ o ∈ pq.2, o'.id = o.id :=
  ⟨pq', hpq, o', ho, rfl⟩

theorem matchLevelsE_levels_from (now : Nat)
    (levels : List (Decimal × List Models.Order)) :
    ∀ (ord : Models.Order) (pq' : Decimal × List Models.Order)
      (o' : Models.Order),
      pq' ∈ (matchLevelsE now ord levels).2.1 → o' ∈ pq'.2 →
      ∃ pq ∈ levels, ∃ o ∈ pq.2, o'.id = o.id := by
  induction levels with
  | nil => intro ord pq' o' h _; simp [matchLevelsE] at h
  | cons lvl rest ih =>
    obtain ⟨p, q⟩ := lvl
    intro ord pq' o' hpq ho
    by_cases ha : ord.is_active
    · by_cases hp : priceBlocks ord p
      · simp only [matchLevelsE, ha, hp, if_true, if_pos] at hpq
        exact levels_from_self _ _ _ hpq ho
      · by_cases he : ((matchQueueE now p ord q).2.1).isEmpty
        · simp only [matchLevelsE, ha, hp, he, if_true, if_pos, if_neg,
            Bool.false_eq_true, if_false] at hpq
          obtain ⟨pq, hpq1, o, ho1, hid⟩ := ih _ pq' o' hpq ho
          exact ⟨pq, List.mem_cons_of_mem _ hpq1, o, ho1, hid⟩
        · simp only [matchLevelsE, ha, hp, he, if_true, if_pos, if_neg,
            Bool.false_eq_true, if_false, List.mem_cons] at hpq
          rcases hpq with h | h
          · subst h
            obtain ⟨o, ho1, hid⟩ := matchQueueE_queue_from now p q ord o' ho
            exact ⟨(p, q), List.mem_cons_self _ _, o, ho1, hid⟩
          · exact ⟨pq', List.mem_cons_of_mem _ h, o', ho, rfl⟩
    · rw [matchLevelsE_inactive now ord ((p, q) :: rest)
        (by simpa using ha)] at hpq
      exact levels_from_self _ _ _ hpq ho

theorem matchQueueE_trades_spec (now : Nat) (p : Decimal)
    (ms : List Models.Order) :
    ∀ (ord : Models.Order) (t : TradeExecution),
      t ∈ (matchQueueE now p ord ms).2.2 →
      t.price = p ∧ t.maker_order_id ∈ ms.map (·.client_order_id) := by
  induction ms with
  | nil => intro ord t h; simp [matchQueueE] at h
  | cons m rest ih =>
    intro ord t h
    by_cases ha : ord.is_active
    · by_cases hm : (({ m with
          executed_qty := m.executed_qty + min
            (ord.original_qty - ord.executed_qty)
            (m.original_qty - m.executed_qty),
          status := fillStatus m.original_qty
            (m.executed_qty + min (ord.original_qty - ord.executed_qty)
              (m.original_qty - m.executed_qty)) } : Models.Order)).is_closed
      · simp only [matchQueueE, ha, if_true, if_pos, hm, List.mem_cons] at h
        rcases h with h | h
        · subst h; exact ⟨rfl, by simp⟩
        · obtain ⟨hp, hmem⟩ := ih _ t h
          exact ⟨hp, by simp at hmem ⊢; exact Or.inr hmem⟩
      · simp only [matchQueueE, ha, if_true, if_pos, hm,
          Bool.false_eq_true, if_false, List.mem_singleton] at h
        subst h; exact ⟨rfl, by simp⟩
    · rw [matchQueueE_inactive now p ord (m :: rest) (by simpa using ha)] at h
      simp at h

theorem matchLevelsE_trades_spec (now : Nat)
    (levels : List (Decimal × List Models.Order)) :
    ∀ (ord : Models.Order) (t : TradeExecution),
      t ∈ (matchLevelsE now ord levels).2.2 →
      ∃ q, (t.price, q) ∈ levels ∧
        t.maker_order_id ∈ q.map (·.client_order_id) := by
  induction levels with
  | nil => intro ord t h; simp [matchLevelsE] at h
  | cons lvl rest ih =>
    obtain ⟨p, q⟩ := lvl
    intro ord t h
    by_cases ha : ord.is_active
    · by_cases hp : priceBlocks ord p
      · simp [matchLevelsE, ha, hp] at h
      · by_cases he : ((matchQueueE now p ord q).2.1).isEmpty
        · simp only [matchLevelsE, ha, hp, he, if_true, if_pos, if_neg,
            Bool.false_eq_true, if_false, List.mem_append] at h
          rcases h with h | h
          · obtain ⟨hpr, hmem⟩ := matchQueueE_trades_spec now p q ord t h
            exact ⟨q, by rw [hpr]; exact List.mem_cons_self _ _, hmem⟩
          · obtain ⟨q', hq', hmem⟩ := ih _ t h
            exact ⟨q', List.mem_cons_of_mem _ hq', hmem⟩
        · simp only [matchLevelsE, ha, hp, he, if_true, if_pos, if_neg,
            Bool.false_eq_true, if_false] at h
          obtain ⟨hpr, hmem⟩ := matchQueueE_trades_spec now p q ord t h
          exact ⟨q, by rw [hpr]; exact List.mem_cons_self _ _, hmem⟩
    · rw [matchLevelsE_inactive now ord ((p, q) :: rest)
        (by simpa using ha)] at h
      simp at h

end Alpha.Engine

namespace Alpha

theorem is_closed_of_status_eq (o r : Models.Order) (h : r.status = o.status) :
    r.is_closed = o.is_closed := by
  simp [Models.Order.is_closed, Models.Order.is_active, h]

/-- C2 (amended) — In the models-path book (`engine/src/matching/engine.rs`),
a Market order is never inserted as resting liquidity: its remaining quantity
after the match loop leaves it `Canceled`, the processed book holds no order
id that was not already resting before the call, and a Market order arriving
at an empty opposite side produces zero trades, ends `Canceled`, and the
(total) `process` function returns normally. (The simplified matching book in
`order_book.rs` ignores `order_type` and rests Market remainders — see the
counterexample.) -/
theorem market_orders_never_rest (b : Engine.OrderBook) (o : Models.Order)
    (now : Nat) (hM : o.order_type = Models.OrderType.Market)
    (hcl : o.is_closed = false) :
    ((b.process o now).1.order.executed_qty <
        (b.process o now).1.order.original_qty →
      (b.process o now).1.order.status = Models.OrderStatus.Canceled) ∧
    (∀ i, ((b.process o now).2).hasOrderId i → b.hasOrderId i) ∧
    ((match o.side with
      | Models.OrderSide.Buy => b.asks
      | Models.OrderSide.Sell => b.bids) = [] →
      (b.process o now).1.trades = [] ∧
      (b.process o now).1.order.status = Models.OrderStatus.Canceled) := by
  cases hside : o.side with
  | Buy =>
    obtain ⟨horig, htype, _, _, hstat⟩ :=
      Engine.matchLevelsE_order_spec now b.asks o
    simp only [Engine.OrderBook.process, hside]
    by_cases hc : (Engine.matchLevelsE now o b.asks).1.is_closed
    · -- the match loop closed the order: it must have filled completely
      have hfill : (Engine.matchLevelsE now o b.asks).1.original_qty ≤
          (Engine.matchLevelsE now o b.asks).1.executed_qty := by
        rcases hstat with h | h | h
        · rw [is_closed_of_status_eq o _ h, hcl] at hc; exact absurd hc (by simp)
        · rw [show (Engine.matchLevelsE now o b.asks).1.is_closed = false by
            simp [Models.Order.is_closed, Models.Order.is_active, h]] at hc
          exact absurd hc (by simp)
        · exact h.2
      refine ⟨?_, ?_, ?_⟩
      · intro hlt
        simp only [hc, if_true, if_pos] at hlt
        exact absurd hlt (not_lt.mpr hfill)
      · intro i hi
        simp only [hc, if_true, if_pos] at hi
        rcases hi with ⟨pq, hpq, oo, hoo, hid⟩ | ⟨pq, hpq, oo, hoo, hid⟩
        · exact Or.inl ⟨pq, hpq, oo, hoo, hid⟩
        · obtain ⟨pq0, hpq0, o0, ho0, hid0⟩ :=
            Engine.matchLevelsE_levels_from now b.asks o pq oo hpq hoo
          exact Or.inr ⟨pq0, hpq0, o0, ho0, hid0 ▸ hid⟩
      · intro hempty
        rw [hempty] at hc ⊢
        simp only [Engine.matchLevelsE] at hc ⊢
        rw [hcl] at hc
        exact absurd hc (by simp)
    · refine ⟨?_, ?_, ?_⟩
      · intro _
        simp only [hc, Bool.false_eq_true, if_false]
        rw [htype, hM]
      · intro i hi
        simp only [hc, Bool.false_eq_true, if_false, htype, hM] at hi
        rcases hi with ⟨pq, hpq, oo, hoo, hid⟩ | ⟨pq, hpq, oo, hoo, hid⟩
        · exact Or.inl ⟨pq, hpq, oo, hoo, hid⟩
        · obtain ⟨pq0, hpq0, o0, ho0, hid0⟩ :=
            Engine.matchLevelsE_levels_from now b.asks o pq oo hpq hoo
          exact Or.inr ⟨pq0, hpq0, o0, ho0, hid0 ▸ hid⟩
      · intro hempty
        rw [hempty] at hc ⊢
        simp only [Engine.matchLevelsE] at hc ⊢
        simp only [hc, Bool.false_eq_true, if_false, hM]
        exact ⟨trivial, trivial⟩
  | Sell =>
    obtain ⟨horig, htype, _, _, hstat⟩ :=
      Engine.matchLevelsE_order_spec now b.bids o
    simp only [Engine.OrderBook.process, hside]
    by_cases hc : (Engine.matchLevelsE now o b.bids).1.is_closed
    · have hfill : (Engine.matchLevelsE now o b.bids).1.original_qty ≤
          (Engine.matchLevelsE now o b.bids).1.executed_qty := by
        rcases hstat with h | h | h
        · rw [is_closed_of_status_eq o _ h, hcl] at hc; exact absurd hc (by simp)
        · rw [show (Engine.matchLevelsE now o b.bids).1.is_closed = false by
            simp [Models.Order.is_closed, Models.Order.is_active, h]] at hc
          exact absurd hc (by simp)
        · exact h.2
      refine ⟨?_, ?_, ?_⟩
      · intro hlt
        simp only [hc, if_true, if_pos] at hlt
        exact absurd hlt (not_lt.mpr hfill)
      · intro i hi
        simp only [hc, if_true, if_pos] at hi
        rcases hi with ⟨pq, hpq, oo, hoo, hid⟩ | ⟨pq, hpq, oo, hoo, hid⟩
        · obtain ⟨pq0, hpq0, o0, ho0, hid0⟩ :=
            Engine.matchLevelsE_levels_from now b.bids o pq oo hpq hoo
          exact Or.inl ⟨pq0, hpq0, o0, ho0, hid0 ▸ hid⟩
        · exact Or.inr ⟨pq, hpq, oo, hoo, hid⟩
      · intro hempty
        rw [hempty] at hc ⊢
        simp only [Engine.matchLevelsE] at hc ⊢
        rw [hcl] at hc
        exact absurd hc (by simp)
    · refine ⟨?_, ?_, ?_⟩
      · intro _
        simp only [hc, Bool.false_eq_true, if_false]
        rw [htype, hM]
      · intro i hi
        simp only [hc, Bool.false_eq_true, if_false, htype, hM] at hi
        rcases hi with ⟨pq, hpq, oo, hoo, hid⟩ | ⟨pq, hpq, oo, hoo, hid⟩
        · obtain ⟨pq0, hpq0, o0, ho0, hid0⟩ :=
            Engine.matchLevelsE_levels_from now b.bids o pq oo hpq hoo
          exact Or.inl ⟨pq0, hpq0, o0, ho0, hid0 ▸ hid⟩
        · exact Or.inr ⟨pq, hpq, oo, hoo, hid⟩
      · intro hempty
        rw [hempty] at hc ⊢
        simp only [Engine.matchLevelsE] at hc ⊢
        simp only [hc, Bool.false_eq_true, if_false, hM]
        exact ⟨trivial, trivial⟩

/-- Witness for C2 at a concrete input: a `New` Market buy order processed on
an empty `engine` book produces no trades and ends `Canceled`. -/
theorem market_orders_never_rest_witness :
    (emptyBookE.process marketTaker 0).1.trades = [] ∧
      (emptyBookE.process marketTaker 0).1.order.status =
        Models.OrderStatus.Canceled :=
  (market_orders_never_rest emptyBookE marketTaker 0 rfl rfl).2.2 rfl

/-- C2 (counterexample) — On the simplified matching book
(`order_book.rs::process_order`), a Market bid on an empty book is NOT
cancelled: the remainder is inserted as resting liquidity with status
`Queued`, contradicting the claim's "final status is Canceled" and "never
inserted as resting liquidity" on this code path. -/
theorem market_order_rests_counterexample :
    ((Matching.OrderBook.new 1).process_order marketTakerM 0).1.status =
        Matching.OrderStatus.Queued ∧
      ((Matching.OrderBook.new 1).process_order marketTakerM 0).2.bids =
        [(100, [marketTakerM])] := by
  constructor
  · with_unfolding_all decide
  · with_unfolding_all decide

/-- C7 — Maker-price execution, for both book implementations: every trade
produced by processing an aggressing order carries as its price the price of
the level at which its maker was resting before the call (and references that
maker), for all orders on both sides — never the aggressor's own limit. -/
theorem maker_price_execution :
    (∀ (b : Matching.OrderBook) (o : Matching.Order) (n : Nat)
      (t : Matching.Trade), t ∈ ((b.process_order o n).1).trades →
      ∃ q, (t.price, q) ∈ (match o.side with
          | Matching.Side.Bid => b.asks
          | Matching.Side.Ask => b.bids) ∧
        t.maker_order_id ∈ q.map (·.id)) ∧
    (∀ (b : Engine.OrderBook) (o : Models.Order) (n : Nat)
      (t : Engine.TradeExecution), t ∈ ((b.process o n).1).trades →
      ∃ q, (t.price, q) ∈ (match o.side with
          | Models.OrderSide.Buy => b.asks
          | Models.OrderSide.Sell => b.bids) ∧
        t.maker_order_id ∈ q.map (·.client_order_id)) := by
  constructor
  · exact fun b o n t ht => Matching.process_order_maker_price b o n t ht
  · intro b o n t ht
    cases hside : o.side with
    | Buy =>
      simp only [hside]
      simp only [Engine.OrderBook.process, hside] at ht
      have ht' : t ∈ (Engine.matchLevelsE n o b.asks).2.2 := by
        by_cases hc : (Engine.matchLevelsE n o b.asks).1.is_closed
        · simpa [hc] using ht
        · simp only [hc, Bool.false_eq_true, if_false] at ht
          cases hot : (Engine.matchLevelsE n o b.asks).1.order_type <;>
            simpa [hot] using ht
      exact Engine.matchLevelsE_trades_spec n b.asks o t ht'
    | Sell =>
      simp only [hside]
      simp only [Engine.OrderBook.process, hside] at ht
      have ht' : t ∈ (Engine.matchLevelsE n o b.bids).2.2 := by
        by_cases hc : (Engine.matchLevelsE n o b.bids).1.is_closed
        · simpa [hc] using ht
        · simp only [hc, Bool.false_eq_true, if_false] at ht
          cases hot : (Engine.matchLevelsE n o b.bids).1.order_type <;>
            simpa [hot] using ht
      exact Engine.matchLevelsE_trades_spec n b.bids o t ht'

/-- Witness for C7 on both books: concrete crossing bids against a single
resting maker at price 100 produce a trade priced 100 referencing that maker. -/
theorem maker_price_execution_witness :
    (∃ q, ((100 : Decimal), q) ∈ (match takerM.side with
        | Matching.Side.Bid => bookM.asks
        | Matching.Side.Ask => bookM.bids) ∧
      (1 : Nat) ∈ q.map (·.id)) ∧
    (∃ q, ((100 : Decimal), q) ∈ (match takerE.side with
        | Models.OrderSide.Buy => bookE.asks
        | Models.OrderSide.Sell => bookE.bids) ∧
      "m" ∈ q.map (·.client_order_id)) := by
  constructor
  · have h := maker_price_execution.1 bookM takerM 0
      ⟨2, 1, 100, 1, Matching.Side.Bid, 0⟩ (by with_unfolding_all decide)
    exact h
  · have h := maker_price_execution.2 bookE takerE 0
      ⟨"", "S", 100, 1, Models.OrderSide.Buy, 0, "m", "t"⟩
      (by with_unfolding_all decide)
    exact h

end Alpha

namespace Alpha.Inventory

theorem lookup_mem {β : Type} (l : List (String × β)) (k : String) (v : β)
    (h : List.lookup k l = some v) : (k, v) ∈ l := by
  induction l with
  | nil => simp [List.lookup] at h
  | cons p t ih =>
    rw [List.lookup] at h
    by_cases hk : k == p.1
    · simp [hk] at h
      have hkp : k = p.1 := by simpa using hk
      subst hkp
      simp [← h]
    · simp [hk] at h
      exact List.mem_cons_of_mem _ (ih h)

theorem balOk_new (a : String) : BalOk (AssetBalance.new a) :=
  ⟨le_refl 0, le_refl 0⟩

theorem invOk_setBal {m : InventoryManager} {v : AssetBalance} (k : String)
    (h : InvOk m) (hv : BalOk v) : InvOk (setBal m k v) := by
  intro pb hpb
  simp only [setBal, List.mem_cons] at hpb
  rcases hpb with h1 | h1
  · rw [h1]; exact hv
  · exact h pb (List.mem_of_mem_filter h1)

theorem invOk_getOrNew {m : InventoryManager} (k : String) (h : InvOk m) :
    BalOk (getOrNew m k) := by
  unfold getOrNew getBal
  cases hg : List.lookup k m.balances with
  | none => exact balOk_new k
  | some e => exact h (k, e) (lookup_mem _ _ _ hg)

theorem getOrNew_of_lookup {m : InventoryManager} {k : String}
    {e : AssetBalance} (hg : getBal m k = some e) : getOrNew m k = e := by
  simp [getOrNew, hg]

theorem deposit_invOk {m : InventoryManager} (asset : String)
    (amount : Decimal) (h : InvOk m) (ha : 0 ≤ amount) :
    InvOk (deposit m asset amount) := by
  have he := invOk_getOrNew asset h
  apply invOk_setBal asset h
  refine ⟨he.1, ?_⟩
  show (getOrNew m asset).locked ≤ (getOrNew m asset).total + amount
  have := he.2
  linarith

theorem withdraw_invOk {m : InventoryManager} (asset : String)
    (amount : Decimal) (h : InvOk m) : InvOk (withdraw m asset amount).2 := by
  unfold withdraw
  cases hg : getBal m asset with
  | none => exact h
  | some e =>
    have he : BalOk e := h (asset, e) (lookup_mem _ _ _ hg)
    by_cases hlt : e.available < amount
    · simp only [hlt, if_pos]
      exact h
    · simp only [hlt, if_neg, Bool.false_eq_true, if_false]
      apply invOk_setBal asset h
      have hav : amount ≤ e.total - e.locked := by
        simpa [AssetBalance.available] using not_lt.mp hlt
      refine ⟨he.1, ?_⟩
      show e.locked ≤ e.total - amount
      linarith

theorem lock_funds_invOk {m : InventoryManager} (asset : String)
    (amount : Decimal) (h : InvOk m) (ha : 0 ≤ amount) :
    InvOk (lock_funds m asset amount).2 := by
  unfold lock_funds
  have he := invOk_getOrNew asset h
  by_cases hlt : (getOrNew m asset).available < amount
  · simp only [hlt, if_pos]
    exact invOk_setBal asset h he
  · simp only [hlt, if_neg, Bool.false_eq_true, if_false]
    apply invOk_setBal asset (invOk_setBal asset h he)
    have hav : amount ≤ (getOrNew m asset).total - (getOrNew m asset).locked := by
      simpa [AssetBalance.available] using not_lt.mp hlt
    refine ⟨?_, ?_⟩
    · show 0 ≤ (getOrNew m asset).locked + amount
      have := he.1
      linarith
    · show (getOrNew m asset).locked + amount ≤ (getOrNew m asset).total
      have := he.2
      linarith

theorem unlock_funds_invOk {m : InventoryManager} (asset : String)
    (amount : Decimal) (h : InvOk m) (ha : 0 ≤ amount) :
    InvOk (unlock_funds m asset amount).2 := by
  unfold unlock_funds
  cases hg : getBal m asset with
  | none => exact h
  | some e =>
    have he : BalOk e := h (asset, e) (lookup_mem _ _ _ hg)
    by_cases hlt : e.locked < amount
    · simp only [hlt, if_pos]
      apply invOk_setBal asset h
      exact ⟨le_refl 0, le_trans he.1 he.2⟩
    · simp only [hlt, if_neg, Bool.false_eq_true, if_false]
      apply invOk_setBal asset h
      have hge : amount ≤ e.locked := not_lt.mp hlt
      refine ⟨?_, ?_⟩
      · show 0 ≤ e.locked - amount
        linarith
      · show e.locked - amount ≤ e.total
        have := he.2
        linarith

theorem commit_trade_invOk {m : InventoryManager} (base quote : String)
    (side : Matching.Side) (qty price fee : Decimal) (h : InvOk m)
    (hcond : match side with
      | Matching.Side.Bid =>
        qty * price ≤ (getOrNew m quote).locked ∧ fee ≤ qty
      | Matching.Side.Ask =>
        qty ≤ (getOrNew m base).locked ∧ fee ≤ qty * price) :
    InvOk (commit_trade m base quote side qty price fee).2 := by
  cases side with
  | Bid =>
    obtain ⟨hcost, hfee⟩ := hcond
    unfold commit_trade
    cases hg : getBal m quote with
    | none => exact h
    | some qb =>
      have hqb : BalOk qb := h (quote, qb) (lookup_mem _ _ _ hg)
      rw [getOrNew_of_lookup hg] at hcost
      have hq1 : BalOk { qb with
          total := qb.total - qty * price,
          locked := if qty * price ≤ qb.locked then qb.locked - qty * price
            else 0 } := by
        rw [if_pos hcost]
        refine ⟨?_, ?_⟩
        · show 0 ≤ qb.locked - qty * price
          linarith
        · show qb.locked - qty * price ≤ qb.total - qty * price
          have := hqb.2
          linarith
      have hm1 := invOk_setBal quote h hq1
      apply invOk_setBal base hm1
      have hbb := invOk_getOrNew base hm1
      refine ⟨hbb.1, ?_⟩
      show (getOrNew (setBal m quote _) base).locked ≤
        (getOrNew (setBal m quote _) base).total + qty - fee
      have := hbb.2
      linarith
  | Ask =>
    obtain ⟨hqty, hfee⟩ := hcond
    unfold commit_trade
    cases hg : getBal m base with
    | none => exact h
    | some bb =>
      have hbb : BalOk bb := h (base, bb) (lookup_mem _ _ _ hg)
      rw [getOrNew_of_lookup hg] at hqty
      have hb1 : BalOk { bb with
          total := bb.total - qty,
          locked := if qty ≤ bb.locked then bb.locked - qty else 0 } := by
        rw [if_pos hqty]
        refine ⟨?_, ?_⟩
        · show 0 ≤ bb.locked - qty
          linarith
        · show bb.locked - qty ≤ bb.total - qty
          have := hbb.2
          linarith
      have hm1 := invOk_setBal base h hb1
      apply invOk_setBal quote hm1
      have hqb := invOk_getOrNew quote hm1
      refine ⟨hqb.1, ?_⟩
      show (getOrNew (setBal m base _) quote).locked ≤
        (getOrNew (setBal m base _) quote).total + qty * price - fee
      have := hqb.2
      linarith

/-- C3 (amended) — Inventory invariant `total ≥ locked ≥ 0`, per asset, is
preserved by: `deposit` of a nonnegative amount; `withdraw` always (its guard
protects it); `lock_funds` and `unlock_funds` of nonnegative amounts; and
`commit_trade` provided the debited leg was fully locked (`qty·price ≤
quote.locked` for a Bid, `qty ≤ base.locked` for an Ask) and the fee does not
exceed the credited amount (`fee ≤ qty` for a Bid, `fee ≤ qty·price` for an
Ask). Without those preconditions `commit_trade` can push `total` below
`locked` — see the counterexample. -/
theorem inventory_invariant (m : InventoryManager) (asset base quote : String)
    (amount qty price fee : Decimal) (side : Matching.Side) (h : InvOk m) :
    (0 ≤ amount → InvOk (deposit m asset amount)) ∧
    InvOk (withdraw m asset amount).2 ∧
    (0 ≤ amount → InvOk (lock_funds m asset amount).2) ∧
    (0 ≤ amount → InvOk (unlock_funds m asset amount).2) ∧
    ((match side with
      | Matching.Side.Bid =>
        qty * price ≤ (getOrNew m quote).locked ∧ fee ≤ qty
      | Matching.Side.Ask =>
        qty ≤ (getOrNew m base).locked ∧ fee ≤ qty * price) →
      InvOk (commit_trade m base quote side qty price fee).2) :=
  ⟨fun ha => deposit_invOk asset amount h ha,
   withdraw_invOk asset amount h,
   fun ha => lock_funds_invOk asset amount h ha,
   fun ha => unlock_funds_invOk asset amount h ha,
   fun hc => commit_trade_invOk base quote side qty price fee h hc⟩

/-- Witness for C3 on the concrete ledger `ledger0` (100 USD total, 10
locked): each operation preserves the invariant. -/
theorem inventory_invariant_witness :
    InvOk (deposit Alpha.ledger0 "USD" 5) ∧
    InvOk (withdraw Alpha.ledger0 "USD" 5).2 ∧
    InvOk (lock_funds Alpha.ledger0 "USD" 5).2 ∧
    InvOk (unlock_funds Alpha.ledger0 "USD" 5).2 ∧
    InvOk (commit_trade Alpha.ledger0 "BTC" "USD"
      Matching.Side.Bid 1 2 0).2 := by
  have h := inventory_invariant Alpha.ledger0 "USD" "BTC" "USD" 5 1 2 0
    Matching.Side.Bid (by with_unfolding_all decide)
  exact ⟨h.1 (by norm_num), h.2.1, h.2.2.1 (by norm_num),
    h.2.2.2.1 (by norm_num), h.2.2.2.2 (by with_unfolding_all decide)⟩

/-- C3 (counterexample) — The claim as stated fails: starting from the valid
state `ledgerTight` (1 USD total, 1 locked), `commit_trade` of a Bid costing
10 USD returns `Ok` yet leaves USD `total = -9 < locked = 0` — the source
clamps `locked` to zero and subtracts the full cost from `total`, so the
invariant does not survive every operation. -/
theorem inventory_invariant_counterexample :
    InvOk Alpha.ledgerTight ∧
    (commit_trade Alpha.ledgerTight "BTC" "USD"
      Matching.Side.Bid 1 10 0).1 = Except.ok () ∧
    ¬ InvOk (commit_trade Alpha.ledgerTight "BTC" "USD"
      Matching.Side.Bid 1 10 0).2 := by
  refine ⟨by with_unfolding_all decide, by with_unfolding_all rfl,
    by with_unfolding_all decide⟩

end Alpha.Inventory

namespace Alpha.Risk

/-- C4 (amended) — Circuit-breaker trip and reset: on a fresh breaker with
`max_consecutive_errors = 3`, the hot-path check still accepts after two
`record_error` calls, rejects after the third with the structured rule
`CIRCUIT_BREAKER_TRIPPED` (limit "0", actual "1"), and accepts again after
`manual_reset`. -/
theorem breaker_trip_and_reset :
    ensure_closed (record_error (record_error Alpha.freshBreaker "e1") "e2") =
      Except.ok () ∧
    ensure_closed Alpha.trippedBreaker =
      Except.error (AlphaError.RiskViolation "CIRCUIT_BREAKER_TRIPPED"
        "0" "1") ∧
    ensure_closed (manual_reset Alpha.trippedBreaker) = Except.ok () :=
  ⟨rfl, rfl, rfl⟩

/-- C4 (counterexample) — The claim names the rejection rule
`CIRCUIT_TRIPPED`; the structured rule the hot-path check actually carries is
the string `CIRCUIT_BREAKER_TRIPPED` (circuit_breaker.rs line 88), which is
not `CIRCUIT_TRIPPED`. -/
theorem breaker_rule_name_counterexample :
    ensure_closed Alpha.trippedBreaker =
      Except.error (AlphaError.RiskViolation "CIRCUIT_BREAKER_TRIPPED"
        "0" "1") ∧
    "CIRCUIT_BREAKER_TRIPPED" ≠ "CIRCUIT_TRIPPED" :=
  ⟨rfl, by decide⟩

theorem reject_shape {reason : String} {v : Decimal} {r l a : String}
    (h : reject reason v = AlphaError.RiskViolation r l a) :
    r = "PRE_TRADE_VALIDATION" ∧ l = "See Constraints" := by
  simp only [reject, AlphaError.RiskViolation.injEq] at h
  exact ⟨h.1.symm, h.2.1.symm⟩

theorem validate_error_shape (c : TradeConstraints) (o : Matching.Order)
    (ref : Option Decimal) (r l a : String)
    (h : validate c o ref = Except.error (AlphaError.RiskViolation r l a)) :
    (r = "PRE_TRADE_VALIDATION" ∧ l = "See Constraints") ∨
    (r = "PRICE_BAND" ∧ l = toString c.max_price_deviation) := by
  cases ref with
  | none =>
    unfold validate at h
    dsimp only at h
    split_ifs at h
    all_goals
      first
      | (simp only [Except.error.injEq] at h
         exact Or.inl (reject_shape h))
      | simp at h
  | some rp =>
    unfold validate at h
    dsimp only at h
    split_ifs at h
    all_goals
      first
      | (simp only [Except.error.injEq] at h
         first
         | exact Or.inl (reject_shape h)
         | (simp only [AlphaError.RiskViolation.injEq] at h
            exact Or.inr ⟨h.1.symm, h.2.1.symm⟩))
      | simp at h

/-- C9 (amended) — Structured rejections: every rejection the pre-trade
validator returns is a structured `RiskViolation { rule, limit, actual }`
value, but only the price-band check carries the configured limit
(`max_price_deviation`); every other check rejects with the generic rule
`PRE_TRADE_VALIDATION` and the placeholder limit string `See Constraints`
rather than the configured bound it enforces. -/
theorem structured_rejections (c : TradeConstraints) (o : Matching.Order)
    (ref : Option Decimal) (r l a : String)
    (h : validate c o ref = Except.error (AlphaError.RiskViolation r l a)) :
    (r = "PRE_TRADE_VALIDATION" ∧ l = "See Constraints") ∨
    (r = "PRICE_BAND" ∧ l = toString c.max_price_deviation) :=
  validate_error_shape c o ref r l a h

/-- Witness for C9: the quantity-band rejection of `smallOrder` instantiates
the theorem's disjunction. -/
theorem structured_rejections_witness :
    ("PRE_TRADE_VALIDATION" = "PRE_TRADE_VALIDATION" ∧
      "See Constraints" = "See Constraints") ∨
    ("PRE_TRADE_VALIDATION" = "PRICE_BAND" ∧
      "See Constraints" = toString Alpha.ptc0.max_price_deviation) :=
  structured_rejections Alpha.ptc0 Alpha.smallOrder none
    "PRE_TRADE_VALIDATION" "See Constraints" (toString ((1 : Decimal)/2))
    (by with_unfolding_all rfl)

/-- C9 (counterexample) — A quantity-band failure does not report the
configured minimum quantity as the limit: the rejection for `smallOrder`
(quantity 1/2 < min 1) carries the placeholder limit `See Constraints` and
the generic rule `PRE_TRADE_VALIDATION`, not the configured bound. -/
theorem placeholder_limit_counterexample :
    validate Alpha.ptc0 Alpha.smallOrder none =
      Except.error (AlphaError.RiskViolation "PRE_TRADE_VALIDATION"
        "See Constraints" (toString ((1 : Decimal)/2))) ∧
    "See Constraints" ≠ toString Alpha.ptc0.min_quantity := by
  refine ⟨by with_unfolding_all rfl, by with_unfolding_all decide⟩

end Alpha.Risk

namespace Alpha.Pulse

theorem foldl_const {α β : Type} (l : List α) (init : β) :
    l.foldl (fun s _ => s) init = init := by
  induction l generalizing init with
  | nil => rfl
  | cons x t ih => simpa using ih init

/-- C5 (amended) — Pulse-monitor escalation: on a health check at time `now`,
a registered component whose silence `now - last_beat` exceeds its
`max_silence_ms` is reported `Unresponsive`, one whose silence exceeds half
the limit (but not the limit) is reported `Lagging`; however the watchdog
loop takes no action on `Unresponsive` components — the kill-switch call is
commented out in the source — so the global emergency-stop flag is left
unchanged by a monitoring tick. -/
theorem pulse_monitor_escalation (reg : List (String × Nat × Nat))
    (now : Nat) (name : String) (last limit : Nat) (stop : Bool) :
    ((name, last, limit) ∈ reg → last ≤ now → limit < now - last →
      (name, ComponentHealth.Unresponsive (now - last)) ∈
        check_system_health reg now) ∧
    ((name, last, limit) ∈ reg → last ≤ now → limit / 2 < now - last →
      now - last ≤ limit →
      (name, ComponentHealth.Lagging (now - last)) ∈
        check_system_health reg now) ∧
    monitoring_tick stop reg now = stop := by
  refine ⟨?_, ?_, ?_⟩
  · intro hmem hle hsil
    refine List.mem_filterMap.mpr ⟨(name, last, limit), hmem, ?_⟩
    simp only [classify, not_lt.mpr hle, if_neg, if_pos hsil]
    simp [Nat.not_lt.mpr hle]
  · intro hmem hle hhalf hfull
    refine List.mem_filterMap.mpr ⟨(name, last, limit), hmem, ?_⟩
    simp [classify, Nat.not_lt.mpr hle, Nat.not_lt.mpr hfull, hhalf]
  · exact foldl_const _ stop

/-- Witness for C5: with components registered at `last_beat = 0` (limit 50)
and `last_beat = 70` (limit 50), a check at `now = 100` reports the first
Unresponsive (silence 100 > 50) and the second Lagging (25 < 30 ≤ 50), and a
tick leaves the emergency-stop flag `false`. -/
theorem pulse_monitor_escalation_witness :
    ("ME", ComponentHealth.Unresponsive 100) ∈
      check_system_health [("ME", 0, 50), ("LAG", 70, 50)] 100 ∧
    ("LAG", ComponentHealth.Lagging 30) ∈
      check_system_health [("ME", 0, 50), ("LAG", 70, 50)] 100 ∧
    monitoring_tick false [("ME", 0, 50), ("LAG", 70, 50)] 100 = false := by
  have h1 := pulse_monitor_escalation [("ME", 0, 50), ("LAG", 70, 50)] 100
    "ME" 0 50 false
  have h2 := pulse_monitor_escalation [("ME", 0, 50), ("LAG", 70, 50)] 100
    "LAG" 70 50 false
  exact ⟨h1.1 (by decide) (by decide) (by decide),
    h2.2.1 (by decide) (by decide) (by decide) (by decide), h1.2.2⟩

/-- C5 (counterexample) — An Unresponsive component does not trigger the
global kill switch: with "ME" unresponsive (silence 100 > limit 50) the
monitoring tick leaves the emergency-stop flag `false`, contradicting the
claim that the flag becomes true. -/
theorem pulse_kill_switch_counterexample :
    ("ME", ComponentHealth.Unresponsive 100) ∈
      check_system_health [("ME", 0, 50)] 100 ∧
    monitoring_tick false [("ME", 0, 50)] 100 = false := by
  exact ⟨by decide, rfl⟩

end Alpha.Pulse

namespace Alpha.Latency

theorem recordBucket_count (b : LatencyBuckets) (d : Nat) :
    (recordBucket b d).count = b.count + 1 := by
  unfold recordBucket
  dsimp only
  split_ifs <;> rfl

theorem recordBucket_sum (b : LatencyBuckets) (d : Nat) :
    (recordBucket b d).sum_ns = b.sum_ns + d := by
  unfold recordBucket
  dsimp only
  split_ifs <;> rfl

theorem recordBucket_inv (b : LatencyBuckets) (d : Nat) (h : BucketInv b) :
    BucketInv (recordBucket b d) := by
  obtain ⟨hc, hz, hmm⟩ := h
  unfold BucketInv recordBucket
  dsimp only
  split_ifs <;> refine ⟨?_, ?_, ?_⟩ <;> dsimp only at * <;> omega

theorem recordAll_spec (calls : List (Latency.MetricType × Nat)) :
    ∀ t : LatencyTracker, (∀ m, BucketInv (t m)) →
    ∀ m, BucketInv (recordAll t calls m) ∧
      (recordAll t calls m).sum_ns =
        (t m).sum_ns + ((calls.filter (fun c => c.1 = m)).map (·.2)).sum := by
  induction calls with
  | nil =>
    intro t ht m
    exact ⟨ht m, by simp [recordAll]⟩
  | cons c rest ih =>
    intro t ht m
    obtain ⟨cm, cd⟩ := c
    have ht' : ∀ m', BucketInv (record t cm cd m') := by
      intro m'
      unfold record
      by_cases hm : m' = cm
      · simpa [hm] using recordBucket_inv (t cm) cd (ht cm)
      · simpa [hm] using ht m'
    have hrec := ih (record t cm cd) ht' m
    refine ⟨hrec.1, ?_⟩
    have hr2 := hrec.2
    have hstep : recordAll t ((cm, cd) :: rest) =
        recordAll (record t cm cd) rest := rfl
    by_cases hm : cm = m
    · subst hm
      rw [hstep, hr2]
      have hrec0 : record t cm cd cm = recordBucket (t cm) cd := by
        simp [record]
      rw [hrec0, recordBucket_sum]
      have hfil : List.filter (fun c => decide (c.1 = cm)) ((cm, cd) :: rest) =
          (cm, cd) :: List.filter (fun c => decide (c.1 = cm)) rest := by
        simp
      rw [hfil, List.map_cons, List.sum_cons]
      omega
    · rw [hstep, hr2]
      have hne : ¬ m = cm := fun hh => hm hh.symm
      have hrec0 : record t cm cd m = t m := by simp [record, hne]
      rw [hrec0]
      have hfil : List.filter (fun c => decide (c.1 = m)) ((cm, cd) :: rest) =
          List.filter (fun c => decide (c.1 = m)) rest := by
        simp [hm]
      rw [hfil]

/-- C10 — Latency histogram consistency: after any sequence of `record`
calls on a fresh tracker, each metric's stored `count` equals the sum of its
five distribution buckets, its `sum_ns` equals the sum of the durations
recorded for that metric, and whenever `count > 0` the stored `min_ns` does
not exceed `max_ns`. -/
theorem latency_histogram_consistency (calls : List (MetricType × Nat))
    (m : MetricType) :
    (recordAll LatencyTracker.new calls m).count =
      (recordAll LatencyTracker.new calls m).micros_1 +
      (recordAll LatencyTracker.new calls m).micros_10 +
      (recordAll LatencyTracker.new calls m).micros_100 +
      (recordAll LatencyTracker.new calls m).millis_1 +
      (recordAll LatencyTracker.new calls m).slow ∧
    (recordAll LatencyTracker.new calls m).sum_ns =
      ((calls.filter (fun c => c.1 = m)).map (·.2)).sum ∧
    (0 < (recordAll LatencyTracker.new calls m).count →
      (recordAll LatencyTracker.new calls m).min_ns ≤
        (recordAll LatencyTracker.new calls m).max_ns) := by
  have hinit : ∀ mm, BucketInv (LatencyTracker.new mm) := by
    intro mm
    exact ⟨rfl, fun _ => ⟨rfl, rfl⟩, fun h => absurd h (Nat.lt_irrefl 0)⟩
  have h := recordAll_spec calls LatencyTracker.new hinit m
  exact ⟨h.1.1, by simpa [LatencyTracker.new, LatencyBuckets.init] using h.2,
    h.1.2.2⟩

/-- Witness for C10 at `demoCalls`: the MatchingLogic bucket holds two
recorded durations; count matches the bucket sum, sum_ns the recorded
durations, and min ≤ max. -/
theorem latency_histogram_consistency_witness :
    (recordAll LatencyTracker.new Alpha.demoCalls
        MetricType.MatchingLogic).count =
      (recordAll LatencyTracker.new Alpha.demoCalls
        MetricType.MatchingLogic).micros_1 +
      (recordAll LatencyTracker.new Alpha.demoCalls
        MetricType.MatchingLogic).micros_10 +
      (recordAll LatencyTracker.new Alpha.demoCalls
        MetricType.MatchingLogic).micros_100 +
      (recordAll LatencyTracker.new Alpha.demoCalls
        MetricType.MatchingLogic).millis_1 +
      (recordAll LatencyTracker.new Alpha.demoCalls
        MetricType.MatchingLogic).slow ∧
    (recordAll LatencyTracker.new Alpha.demoCalls
        MetricType.MatchingLogic).sum_ns =
      ((Alpha.demoCalls.filter
        (fun c => c.1 = MetricType.MatchingLogic)).map (·.2)).sum ∧
    (recordAll LatencyTracker.new Alpha.demoCalls
        MetricType.MatchingLogic).min_ns ≤
      (recordAll LatencyTracker.new Alpha.demoCalls
        MetricType.MatchingLogic).max_ns := by
  have h := latency_histogram_consistency Alpha.demoCalls
    MetricType.MatchingLogic
  exact ⟨h.1, h.2.1, h.2.2 (by decide)⟩

end Alpha.Latency
